import Mathlib

/-!
# SillyVM (`src/main.c`): a shallow embedding

The machine of `main.c` is embedded as pure functions over an explicit state.

* `int32_t` values are integers (`Int`).  The results of `+`, `-` and `*` are
  reduced with `wrap32`: on overflow the program keeps the low 32 bits, which
  is what the scrambling product relies on.
* The operators `%` and `/` of C are the truncating `Int.tmod` and `Int.tdiv`.
  The one division whose quotient is not an `int32_t` (`INT32_MIN / -1`, and
  with it `INT32_MIN % -1`) has no wrapped result that the hardware would
  keep (the x86 division traps); it is a `Fault`.
* `vm->rx` and `vm->ry` are pointers into `vm->reg`; they are embedded as the
  slot offset `vm->rx - vm->reg` (the number `vm_print_state` prints).  An
  offset outside `0..7` is a pointer outside the register file.
* Every access the C program makes outside an array (a register index that
  is negative after `%`, a program word outside the program, a name outside
  `op_names`) has no defined result in C.  These are made explicit as a
  `Fault` as well.
* The text written to standard output is dropped from `vm_execute`; what
  `vm_display_debug_op` prints is kept as the string it returns, and
  `vm_print_state`, which only prints, is left out.
-/

namespace SillyVM

/-! ## Constants -/

/-- The macro `NUM_REGISTERS`, defined as `(8)`. -/
abbrev NUM_REGISTERS : Int := 8

/-- The macro `PC_OFFSET`, defined as `(4)`. -/
abbrev PC_OFFSET : Int := 4

/-- The status `VMS_OK` of the enum `VMStatus`. -/
abbrev VMS_OK : Int := 0

/-- The status `VMS_HALTED` of the enum `VMStatus`. -/
abbrev VMS_HALTED : Int := 1

/-- The status `VMS_DIV_0_ERROR` of the enum `VMStatus`. -/
abbrev VMS_DIV_0_ERROR : Int := 2

/-- The enumerator `OP_HALT` of the enum `Operation`. -/
abbrev OP_HALT : Int := 0

/-- The enumerator `OP_ADD` of the enum `Operation`. -/
abbrev OP_ADD : Int := 1

/-- The enumerator `OP_SUB` of the enum `Operation`. -/
abbrev OP_SUB : Int := 2

/-- The enumerator `OP_MUL` of the enum `Operation`. -/
abbrev OP_MUL : Int := 3

/-- The enumerator `OP_DIV` of the enum `Operation`. -/
abbrev OP_DIV : Int := 4

/-- The enumerator `OP_MOD` of the enum `Operation`. -/
abbrev OP_MOD : Int := 5

/-- The enumerator `OP_LDS` (load scrambled) of the enum `Operation`. -/
abbrev OP_LDS : Int := 6

/-- The enumerator `NUM_OPCODES` of the enum `Operation`, the one after `OP_LDS`. -/
abbrev NUM_OPCODES : Int := 7

/-- The least `int32_t`. -/
abbrev INT32_MIN : Int := -2147483648

/-- The greatest `int32_t`. -/
abbrev INT32_MAX : Int := 2147483647

/-! ## Machine integers -/

/-- The `int32_t` that a 32-bit machine (wraparound arithmetic) keeps of the
integer `x`. -/
def wrap32 (x : Int) : Int := (x + 2147483648) % 4294967296 - 2147483648

/-- The integer `x` is a value of type `int32_t`. -/
def isInt32 (x : Int) : Prop := INT32_MIN ≤ x ∧ x ≤ INT32_MAX

instance (x : Int) : Decidable (isInt32 x) := by
  unfold isInt32; exact inferInstance

/-! ## Faults and the machine state -/

/-- The ways in which the C program leaves defined behaviour. -/
inductive Fault where
  /-- An access `vm->reg[i]`, `*(vm->rx)` or `*(vm->ry)` outside `reg[0..7]`. -/
  | regOutOfBounds
  /-- The division `INT32_MIN / -1` or `INT32_MIN % -1`. -/
  | divOverflow
  /-- An access `op_names[i]` outside `op_names[0..6]`. -/
  | nameOutOfBounds
  /-- An access `program[i]` outside the program. -/
  | fetchOutOfBounds
  /-- The loop of `vm_execute` was cut by the bound on its iterations. -/
  | outOfFuel
  deriving DecidableEq, Repr

/-- The struct `VirtualMachine`: eight registers, the program counter, and
the slots that the pointers `rx` and `ry` reference. -/
structure VirtualMachine where
  /-- The array `int32_t reg[NUM_REGISTERS]`. -/
  reg : Mathlib.Vector Int 8
  /-- The field `int32_t pc`. -/
  pc : Int
  /-- The offset `vm->rx - vm->reg` of the pointer `rx`. -/
  rx : Int
  /-- The offset `vm->ry - vm->reg` of the pointer `ry`. -/
  ry : Int
  deriving DecidableEq

deriving instance DecidableEq for Except

/-- The slot of `reg` at offset `i`, when there is one. -/
def regIndex (i : Int) : Option (Fin 8) :=
  if h : 0 ≤ i ∧ i < NUM_REGISTERS then
    some ⟨i.toNat, by unfold NUM_REGISTERS at h; omega⟩
  else none

/-- The read `vm->reg[i]` (also `*(vm->rx)` with `i` the offset of `rx`). -/
def load (vm : VirtualMachine) (i : Int) : Except Fault Int :=
  match regIndex i with
  | some k => .ok (vm.reg.get k)
  | none => .error .regOutOfBounds

/-- The write `vm->reg[i] = v`. -/
def store (vm : VirtualMachine) (i : Int) (v : Int) : Except Fault VirtualMachine :=
  match regIndex i with
  | some k => .ok { vm with reg := vm.reg.set k v }
  | none => .error .regOutOfBounds

/-! ## `vm_execute_op` -/

/-- The local `scrambled_opcode` of `vm_execute_op` and `vm_display_debug_op`:
`(int32_t)opcode % NUM_OPCODES`. -/
def scrambled_opcode (opcode : Int) : Int := Int.tmod opcode NUM_OPCODES

/-- The local `real_opcode` of `vm_execute_op` and `vm_display_debug_op`:
`(scrambled_opcode + (*(vm->rx) * *(vm->ry))) % NUM_OPCODES`. -/
def real_opcode (vm : VirtualMachine) (opcode : Int) : Except Fault Int :=
  match load vm vm.rx with
  | .error f => .error f
  | .ok x =>
    match load vm vm.ry with
    | .error f => .error f
    | .ok y => .ok (Int.tmod (wrap32 (scrambled_opcode opcode + wrap32 (x * y))) NUM_OPCODES)

/-- The C operators `/` and `%` on two `int32_t`, for a divisor that the
caller has checked to be non-zero. -/
def c_div (a b : Int) : Except Fault Int :=
  if a = INT32_MIN ∧ b = -1 then .error .divOverflow else .ok (Int.tdiv a b)

/-- See `c_div`. -/
def c_mod (a b : Int) : Except Fault Int :=
  if a = INT32_MIN ∧ b = -1 then .error .divOverflow else .ok (Int.tmod a b)

/-- The statement `vm->reg[result % 8] = vm->reg[op1 % 8] ⊙ vm->reg[op2 % 8]`
of the arithmetic cases, for the operator `f`. -/
def assign (vm : VirtualMachine) (f : Int → Int → Except Fault Int)
    (op1 op2 result : Int) : Except Fault VirtualMachine :=
  match load vm (Int.tmod op1 NUM_REGISTERS) with
  | .error e => .error e
  | .ok a =>
    match load vm (Int.tmod op2 NUM_REGISTERS) with
    | .error e => .error e
    | .ok b =>
      match f a b with
      | .error e => .error e
      | .ok v => store vm (Int.tmod result NUM_REGISTERS) v

/-- The `switch (real_opcode)` of `vm_execute_op` with the `return` that
follows it: the status and the machine after the instruction. -/
def dispatch (vm : VirtualMachine) (real op1 op2 result : Int) :
    Except Fault (Int × VirtualMachine) :=
  if real = OP_ADD then
    match assign vm (fun a b => .ok (wrap32 (a + b))) op1 op2 result with
    | .error e => .error e
    | .ok vm' => .ok (VMS_OK, vm')
  else if real = OP_SUB then
    match assign vm (fun a b => .ok (wrap32 (a - b))) op1 op2 result with
    | .error e => .error e
    | .ok vm' => .ok (VMS_OK, vm')
  else if real = OP_MUL then
    match assign vm (fun a b => .ok (wrap32 (a * b))) op1 op2 result with
    | .error e => .error e
    | .ok vm' => .ok (VMS_OK, vm')
  else if real = OP_DIV then
    match load vm (Int.tmod op2 NUM_REGISTERS) with
    | .error e => .error e
    | .ok d =>
      if d ≠ 0 then
        match assign vm c_div op1 op2 result with
        | .error e => .error e
        | .ok vm' => .ok (VMS_OK, vm')
      else .ok (VMS_DIV_0_ERROR, vm)
  else if real = OP_MOD then
    match load vm (Int.tmod op2 NUM_REGISTERS) with
    | .error e => .error e
    | .ok d =>
      if d ≠ 0 then
        match assign vm c_mod op1 op2 result with
        | .error e => .error e
        | .ok vm' => .ok (VMS_OK, vm')
      else .ok (VMS_DIV_0_ERROR, vm)
  else if real = OP_LDS then
    match store { vm with ry := Int.tmod op2 NUM_REGISTERS }
        (Int.tmod result NUM_REGISTERS) op1 with
    | .error e => .error e
    | .ok vm' => .ok (VMS_OK, vm')
  else .ok (VMS_HALTED, vm)

/-- The function `vm_execute_op`: decode the opcode, then dispatch on the
decoded opcode. -/
def vm_execute_op (vm : VirtualMachine) (opcode op1 op2 result : Int) :
    Except Fault (Int × VirtualMachine) :=
  match real_opcode vm opcode with
  | .error e => .error e
  | .ok real => dispatch vm real op1 op2 result

/-! ## `vm_display_debug_op` -/

/-- The table `op_names`. -/
def op_names : List String := ["HALT", "ADD", "SUB", "MUL", "DIV", "MOD", "LDS"]

/-- The read `op_names[i]`. -/
def op_name (i : Int) : Except Fault String :=
  if 0 ≤ i then
    match op_names[i.toNat]? with
    | some s => .ok s
    | none => .error .nameOutOfBounds
  else .error .nameOutOfBounds

/-- The arguments `R%d(%d)` of a source operand as `vm_display_debug_op`
passes them to `printf`: `op % NUM_REGISTERS` and `op`. -/
def show_operand (op : Int) : String :=
  "R" ++ toString (Int.tmod op NUM_REGISTERS) ++ "(" ++ toString op ++ ")"

/-- The text printed by the `switch (real_opcode)` of `vm_display_debug_op`. -/
def display_switch (real op1 op2 result : Int) : String :=
  if real = OP_ADD then
    "ADD: R" ++ toString result ++ " = " ++ show_operand op1 ++ " + " ++ show_operand op2 ++ "\n"
  else if real = OP_SUB then
    "SUB: R" ++ toString result ++ " = " ++ show_operand op1 ++ " - " ++ show_operand op2 ++ "\n"
  else if real = OP_MUL then
    "MUL: R" ++ toString result ++ " = " ++ show_operand op1 ++ " * " ++ show_operand op2 ++ "\n"
  else if real = OP_DIV then
    "DIV: R" ++ toString result ++ " = " ++ show_operand op1 ++ " / " ++ show_operand op2 ++ "\n"
  else if real = OP_MOD then
    "MOD: R" ++ toString result ++ " = " ++ show_operand op1 ++ " % " ++ show_operand op2 ++ "\n"
  else if real = OP_LDS then
    "LDS: &RY = " ++ show_operand op2 ++ ", R" ++ toString result ++ " = " ++ toString op1 ++ "\n"
  else "HALT!\n\n"

/-- The function `vm_display_debug_op`: the text it prints. -/
def vm_display_debug_op (vm : VirtualMachine) (opcode op1 op2 result : Int) :
    Except Fault String :=
  match real_opcode vm opcode with
  | .error e => .error e
  | .ok real =>
    if real ≠ scrambled_opcode opcode then
      match op_name (Int.tmod (scrambled_opcode opcode) NUM_OPCODES) with
      | .error e => .error e
      | .ok name => .ok ("OP_" ++ name ++ " -> " ++ display_switch real op1 op2 result)
    else .ok ("OP_" ++ display_switch real op1 op2 result)

/-! ## `vm_init` and `vm_execute` -/

/-- The function `vm_init`. -/
def vm_init : VirtualMachine :=
  { reg := Mathlib.Vector.replicate 8 0, pc := 0, rx := 0, ry := 0 }

/-- The read `program[i]`. -/
def fetch (program : List Int) (i : Int) : Except Fault Int :=
  if 0 ≤ i then
    match program[i.toNat]? with
    | some w => .ok w
    | none => .error .fetchOutOfBounds
  else .error .fetchOutOfBounds

/-- The four words `opcode`, `op1`, `op2`, `result` that one iteration of the
loop of `vm_execute` reads from the program.  The first word is converted to
the enum `Operation` and back by `(int32_t)opcode`, which keeps its value. -/
def fetch_instruction (vm : VirtualMachine) (program : List Int) :
    Except Fault (Int × Int × Int × Int) :=
  match fetch program vm.pc with
  | .error e => .error e
  | .ok opcode =>
    match fetch program (wrap32 (vm.pc + 1)) with
    | .error e => .error e
    | .ok op1 =>
      match fetch program (wrap32 (vm.pc + 2)) with
      | .error e => .error e
      | .ok op2 =>
        match fetch program (wrap32 (vm.pc + 3)) with
        | .error e => .error e
        | .ok result => .ok (opcode, op1, op2, result)

/-- One iteration of the loop of `vm_execute` up to the call of
`vm_execute_op`: fetch, trace, execute. -/
def vm_execute_body (vm : VirtualMachine) (program : List Int) :
    Except Fault (Int × VirtualMachine) :=
  match fetch_instruction vm program with
  | .error e => .error e
  | .ok (opcode, op1, op2, result) =>
    match vm_display_debug_op vm opcode op1 op2 result with
    | .error e => .error e
    | .ok _ => vm_execute_op vm opcode op1 op2 result

/-- The statement `vm->pc += PC_OFFSET`. -/
def advance (vm : VirtualMachine) : VirtualMachine :=
  { vm with pc := wrap32 (vm.pc + PC_OFFSET) }

/-- The loop of `vm_execute`, cut after `fuel` iterations. -/
def vm_execute_loop (program : List Int) (program_size : Int) :
    Nat → VirtualMachine → Except Fault (Int × VirtualMachine)
  | 0, _ => .error .outOfFuel
  | fuel + 1, vm =>
    if vm.pc < program_size then
      match vm_execute_body vm program with
      | .error e => .error e
      | .ok (error_code, vm') =>
        if error_code ≠ 0 then .ok (error_code, vm')
        else vm_execute_loop program program_size fuel (advance vm')
    else .ok (0, vm)

/-- The function `vm_execute`: the status it returns and the machine it
leaves.  The loop runs at most `program_size - pc` times, one more iteration
is the exit test. -/
def vm_execute (vm : VirtualMachine) (program : List Int) (program_size : Int) :
    Except Fault (Int × VirtualMachine) :=
  vm_execute_loop program program_size ((program_size - vm.pc).toNat + 1) vm

/-! ## Vocabulary of the statements -/

/-- The register slot `i mod 8` (Euclidean, in `0..7`) that a field `i`
designates. -/
def slot (i : Int) : Fin 8 := ⟨(i % 8).toNat, by omega⟩

/-- The machine after `n` iterations of the loop of `vm_execute` that all
ended with status `VMS_OK`, when the run from `vm` has that many. -/
def vm_execute_steps (program : List Int) (program_size : Int) :
    Nat → VirtualMachine → Option VirtualMachine
  | 0, vm => some vm
  | n + 1, vm =>
    if vm.pc < program_size then
      match vm_execute_body vm program with
      | .ok (error_code, vm') =>
        if error_code ≠ 0 then none
        else vm_execute_steps program program_size n (advance vm')
      | .error _ => none
    else none

/-- The machines that can be met from `vm_init`, whatever the instructions:
the closure of `vm_init` under a call of `vm_execute_op` that returns, under
the statement `vm->pc += PC_OFFSET`, and under a call of `vm_execute` that
returns. -/
inductive Reachable : VirtualMachine → Prop
  | init : Reachable vm_init
  | step_op (vm vm' : VirtualMachine) (opcode op1 op2 result st : Int) :
      Reachable vm → vm_execute_op vm opcode op1 op2 result = .ok (st, vm') → Reachable vm'
  | step_pc (vm : VirtualMachine) : Reachable vm → Reachable (advance vm)
  | run (vm vm' : VirtualMachine) (program : List Int) (program_size st : Int) :
      Reachable vm → vm_execute vm program program_size = .ok (st, vm') → Reachable vm'

/-- The number of calls of `vm_execute_op` that the loop of `vm_execute`
makes from `vm` when it is cut after `fuel` iterations. -/
def executed_instructions (program : List Int) (program_size : Int) :
    Nat → VirtualMachine → Nat
  | 0, _ => 0
  | fuel + 1, vm =>
    if vm.pc < program_size then
      match fetch_instruction vm program with
      | .error _ => 0
      | .ok (opcode, op1, op2, result) =>
        match vm_display_debug_op vm opcode op1 op2 result with
        | .error _ => 0
        | .ok _ =>
          match vm_execute_op vm opcode op1 op2 result with
          | .error _ => 1
          | .ok (error_code, vm') =>
            if error_code ≠ 0 then 1
            else 1 + executed_instructions program program_size fuel (advance vm')
    else 0

/-- The mnemonic of the case of the switch of `vm_execute_op` that the value
`real` selects; the `default` case is the case of `OP_HALT`. -/
def dispatch_name (real : Int) : String :=
  if real = OP_ADD then "ADD"
  else if real = OP_SUB then "SUB"
  else if real = OP_MUL then "MUL"
  else if real = OP_DIV then "DIV"
  else if real = OP_MOD then "MOD"
  else if real = OP_LDS then "LDS"
  else "HALT"

/-! ## Programs and states of the worked examples -/

/-- Two loads that put `-1` in register 0 and `1` in register 1 and leave
`ry` at slot 1. -/
def program_minus_one : List Int := [6, -1, 1, 0, 6, 1, 1, 1]

/-- The machine that `program_minus_one` leaves. -/
def vm_minus_one : VirtualMachine :=
  { reg := ⟨[-1, 1, 0, 0, 0, 0, 0, 0], rfl⟩, pc := 8, rx := 0, ry := 1 }

/-- Two loads that put `-7` in register 0 and `1` in register 1 and leave
`ry` at slot 1. -/
def program_minus_seven : List Int := [6, -7, 1, 0, 6, 1, 1, 1]

/-- The machine that `program_minus_seven` leaves. -/
def vm_minus_seven : VirtualMachine :=
  { reg := ⟨[-7, 1, 0, 0, 0, 0, 0, 0], rfl⟩, pc := 8, rx := 0, ry := 1 }

/-- A machine with `INT32_MAX` in register 0, `3` in register 1 and `ry` at
the zero register 2, as the loads `LDS(INT32_MAX, 2, 0)`, `LDS(3, 2, 1)` leave
it. -/
def vm_max : VirtualMachine :=
  { reg := ⟨[2147483647, 3, 0, 0, 0, 0, 0, 0], rfl⟩, pc := 8, rx := 0, ry := 2 }

/-- Two loads that put `INT32_MIN` in register 0 and `-1` in register 1 and
leave `ry` at the zero register 2. -/
def program_min_neg_one : List Int := [6, -2147483648, 2, 0, 6, -1, 2, 1]

/-- The machine that `program_min_neg_one` leaves. -/
def vm_min_neg_one : VirtualMachine :=
  { reg := ⟨[-2147483648, -1, 0, 0, 0, 0, 0, 0], rfl⟩, pc := 8, rx := 0, ry := 2 }

/-- A machine with `-7` in register 0, `2` in register 1 and `ry` at the
zero register 2, as the loads `LDS(-7, 2, 0)`, `LDS(2, 2, 1)` leave it. -/
def vm_neg_dividend : VirtualMachine :=
  { reg := ⟨[-7, 2, 0, 0, 0, 0, 0, 0], rfl⟩, pc := 8, rx := 0, ry := 2 }

/-- The array `program` of `main`. -/
def program_main : List Int :=
  [OP_LDS, 0x4a, 1, 1,
   OP_LDS, 0x40, 2, 2,
   OP_LDS, 0x29, 1, 0,
   OP_ADD, 2, 1, 1,
   OP_ADD, 2, 1, 1,
   OP_LDS, 0, 0, 0,
   OP_HALT, 0x21, 0x37, 0x21372137]

/-- The argument `sizeof(program)` that `main` passes as `program_size`: the
size in bytes of 28 words of 4 bytes. -/
def program_main_size : Int := 112

/-- The machine of `main` after six instructions of `program_main`. -/
def vm_main_before_halt : VirtualMachine :=
  { reg := ⟨[0, 64, 64, 0, 0, 0, 0, 0], rfl⟩, pc := 24, rx := 0, ry := 1 }

/-- The machine of `main` after the three loads that open `program_main`. -/
def vm_main_after_loads : VirtualMachine :=
  { reg := ⟨[0x29, 0x4a, 0x40, 0, 0, 0, 0, 0], rfl⟩, pc := 12, rx := 0, ry := 1 }

/-- The machine of `main` after four instructions of `program_main`. -/
def vm_main_after_four : VirtualMachine :=
  { reg := ⟨[0x29, 0, 0x40, 0, 0, 0, 0, 0], rfl⟩, pc := 16, rx := 0, ry := 1 }

/-- The machine of `main` after five instructions of `program_main`. -/
def vm_main_after_five : VirtualMachine :=
  { reg := ⟨[0x29, 0x40, 0x40, 0, 0, 0, 0, 0], rfl⟩, pc := 20, rx := 0, ry := 1 }

/-- Three instructions, none a `HALT`, none a division by zero: two loads put
`INT32_MIN` in register 0 and `-1` in register 1, then `DIV(0, 1, 3)`. -/
def program_div_overflow : List Int :=
  [6, -2147483648, 2, 0, 6, -1, 2, 1, 4, 0, 1, 3]

/-- One instruction, `ADD(-1, 0, 0)`. -/
def program_negative_field : List Int := [1, -1, 0, 0]

/-- One instruction, `LDS(0, -1, 0)`: a load with a negative field `op2`. -/
def program_negative_ry : List Int := [6, 0, -1, 0]

/-- The machine that `program_negative_ry` leaves: `ry` is one slot before
the register file. -/
def vm_negative_ry : VirtualMachine :=
  { reg := Mathlib.Vector.replicate 8 0, pc := 4, rx := 0, ry := -1 }

/-- A machine with `7` in register 0, `3` in register 1 and `ry` at slot 1,
as the loads `LDS(7, 1, 0)`, `LDS(3, 1, 1)` leave it. -/
def vm_seven : VirtualMachine :=
  { reg := ⟨[7, 3, 0, 0, 0, 0, 0, 0], rfl⟩, pc := 8, rx := 0, ry := 1 }

/-- Two instructions, `LDS(5, 1, 2)` and `HALT`. -/
def program_load_halt : List Int := [6, 5, 1, 2, 0, 0, 0, 0]

/-- The machine that the load of `program_load_halt` leaves. -/
def vm_load_halt : VirtualMachine :=
  { reg := ⟨[0, 0, 5, 0, 0, 0, 0, 0], rfl⟩, pc := 4, rx := 0, ry := 1 }

/-- The machine `vm_main_after_loads` with other contents in the registers 1
and 2 that leave the product of the index registers unchanged modulo 7. -/
def vm_other_contents : VirtualMachine :=
  { reg := ⟨[0x29, 4, 1000, 0, 0, 0, 0, 0], rfl⟩, pc := 12, rx := 0, ry := 1 }

/-! ## Lemmas on registers and decoding -/

theorem regIndex_slot (i : Int) (h : 0 ≤ i) :
    regIndex (Int.tmod i NUM_REGISTERS) = some (slot i) := by
  have h1 : Int.tmod i NUM_REGISTERS = i % 8 := Int.tmod_eq_emod h (by decide)
  have h2 : 0 ≤ i % 8 ∧ i % 8 < NUM_REGISTERS := by
    unfold NUM_REGISTERS; omega
  rw [h1]
  unfold regIndex
  rw [dif_pos h2]
  rfl

theorem load_slot (vm : VirtualMachine) (i : Int) (h : 0 ≤ i) :
    load vm (Int.tmod i NUM_REGISTERS) = .ok (vm.reg.get (slot i)) := by
  unfold load
  rw [regIndex_slot i h]

theorem store_slot (vm : VirtualMachine) (i v : Int) (h : 0 ≤ i) :
    store vm (Int.tmod i NUM_REGISTERS) v
      = .ok { vm with reg := vm.reg.set (slot i) v } := by
  unfold store
  rw [regIndex_slot i h]

theorem assign_slot (vm : VirtualMachine) (f : Int → Int → Except Fault Int)
    (op1 op2 result v : Int) (h1 : 0 ≤ op1) (h2 : 0 ≤ op2) (hr : 0 ≤ result)
    (hf : f (vm.reg.get (slot op1)) (vm.reg.get (slot op2)) = .ok v) :
    assign vm f op1 op2 result
      = .ok { vm with reg := vm.reg.set (slot result) v } := by
  unfold assign
  rw [load_slot vm op1 h1, load_slot vm op2 h2]
  simp only [hf]
  exact store_slot vm result v hr

theorem wrap32_of_isInt32 (x : Int) (h : isInt32 x) : wrap32 x = x := by
  unfold isInt32 INT32_MIN INT32_MAX at h
  unfold wrap32
  omega

theorem vm_execute_op_of_real (vm : VirtualMachine) (opcode real op1 op2 result : Int)
    (h : real_opcode vm opcode = .ok real) :
    vm_execute_op vm opcode op1 op2 result = dispatch vm real op1 op2 result := by
  unfold vm_execute_op
  rw [h]

/-! ## The effective opcode -/

/-- C1: the effective opcode is not always in `[0, 7)`.  After the two loads
of `program_minus_one` the registers that `rx` and `ry` reference hold `-1`
and `1`; for the encoded opcode `HALT` (0) `vm_execute_op` then computes the
effective opcode `-1`, takes the `default` branch of the switch and returns
`VMS_HALTED` although the effective opcode is not 0. -/
theorem effective_opcode_negative :
    vm_execute_steps program_minus_one 8 2 vm_init = some vm_minus_one ∧
    load vm_minus_one vm_minus_one.rx = .ok (-1) ∧
    load vm_minus_one vm_minus_one.ry = .ok 1 ∧
    real_opcode vm_minus_one OP_HALT = .ok (-1) ∧
    vm_execute_op vm_minus_one OP_HALT 0 0 0 = .ok (VMS_HALTED, vm_minus_one) := by
  refine ⟨by decide, by decide, by decide, by decide, by decide⟩

/-- C2: a product that is a multiple of 7 does not leave the opcode as
encoded.  After the two loads of `program_minus_seven` the product of the
registers that `rx` and `ry` reference is `-7`; for the encoded opcode `ADD`
(1) `vm_execute_op` computes the effective opcode `-6` and halts through the
`default` branch, where `1 mod 7` is `1` and an `ADD` was to be executed. -/
theorem scrambling_multiple_of_seven_changes_opcode :
    vm_execute_steps program_minus_seven 8 2 vm_init = some vm_minus_seven ∧
    load vm_minus_seven vm_minus_seven.rx = .ok (-7) ∧
    load vm_minus_seven vm_minus_seven.ry = .ok 1 ∧
    (-7 * 1 : Int) % NUM_OPCODES = 0 ∧
    real_opcode vm_minus_seven OP_ADD = .ok (-6) ∧
    vm_execute_op vm_minus_seven OP_ADD 2 1 3 = .ok (VMS_HALTED, vm_minus_seven) := by
  refine ⟨by decide, by decide, by decide, by decide, by decide, by decide⟩

/-- C3: for an encoded opcode in `0..6`, when the register that `rx`
references or the register that `ry` references holds 0, the effective
opcode is the encoded opcode and `vm_execute_op` runs the switch on it. -/
theorem effective_opcode_of_zero_index_register (vm : VirtualMachine)
    (opcode op1 op2 result x y : Int)
    (hlo : 0 ≤ opcode) (hhi : opcode ≤ 6)
    (hx : load vm vm.rx = .ok x) (hy : load vm vm.ry = .ok y)
    (hzero : x = 0 ∨ y = 0) :
    real_opcode vm opcode = .ok opcode ∧
    vm_execute_op vm opcode op1 op2 result = dispatch vm opcode op1 op2 result := by
  have hxy : x * y = 0 := by
    rcases hzero with h | h <;> simp [h]
  have hs : scrambled_opcode opcode = opcode :=
    Int.tmod_eq_of_lt hlo (by unfold NUM_OPCODES; omega)
  have hreal : real_opcode vm opcode = .ok opcode := by
    unfold real_opcode
    rw [hx, hy]
    simp only [hxy, hs]
    have h0 : wrap32 0 = 0 := by decide
    rw [h0, Int.add_zero, wrap32_of_isInt32 opcode (by unfold isInt32 INT32_MIN INT32_MAX; omega)]
    rw [Int.tmod_eq_of_lt hlo (by unfold NUM_OPCODES; omega)]
  exact ⟨hreal, vm_execute_op_of_real vm opcode opcode op1 op2 result hreal⟩

/-- C3, at a concrete machine: at `vm_minus_one` with `ry` moved to the
zero register 2, the encoded `MUL` is executed as `MUL`. -/
theorem effective_opcode_of_zero_index_register_witness :
    real_opcode { vm_minus_one with ry := 2 } OP_MUL = .ok OP_MUL ∧
    vm_execute_op { vm_minus_one with ry := 2 } OP_MUL 0 1 3
      = dispatch { vm_minus_one with ry := 2 } OP_MUL 0 1 3 :=
  effective_opcode_of_zero_index_register { vm_minus_one with ry := 2 } OP_MUL 0 1 3 (-1) 0
    (by decide) (by decide) (by decide) (by decide) (by decide)

/-- C4: a negative register field leaves the register file.  From the
initial machine the encoded `ADD` and `LDS` are executed as such; with the
field `-1`, for which `-1 mod 8 = 7`, the index `-1 % 8` of the C program is
`-1` and the access is outside `reg[0..7]`, whereas the same instruction with
the field 7 completes with `VMS_OK`. -/
theorem negative_register_field_out_of_bounds :
    real_opcode vm_init OP_ADD = .ok OP_ADD ∧
    real_opcode vm_init OP_LDS = .ok OP_LDS ∧
    (-1 : Int) % NUM_REGISTERS = 7 ∧
    Int.tmod (-1) NUM_REGISTERS = -1 ∧
    vm_execute_op vm_init OP_ADD (-1) 0 0 = .error .regOutOfBounds ∧
    vm_execute_op vm_init OP_ADD 0 (-1) 0 = .error .regOutOfBounds ∧
    vm_execute_op vm_init OP_ADD 0 0 (-1) = .error .regOutOfBounds ∧
    vm_execute_op vm_init OP_LDS 5 0 (-1) = .error .regOutOfBounds ∧
    (∃ vm', vm_execute_op vm_init OP_ADD 7 0 0 = .ok (VMS_OK, vm')) ∧
    (∃ vm', vm_execute_op vm_init OP_ADD 0 7 0 = .ok (VMS_OK, vm')) ∧
    (∃ vm', vm_execute_op vm_init OP_ADD 0 0 7 = .ok (VMS_OK, vm')) ∧
    (∃ vm', vm_execute_op vm_init OP_LDS 5 0 7 = .ok (VMS_OK, vm')) := by
  refine ⟨by decide, by decide, by decide, by decide, by decide, by decide, by decide,
    by decide, ⟨_, rfl⟩, ⟨_, rfl⟩, ⟨_, rfl⟩, ⟨_, rfl⟩⟩

/-! ## The instructions -/

theorem dispatch_add (vm : VirtualMachine) (op1 op2 result : Int)
    (h1 : 0 ≤ op1) (h2 : 0 ≤ op2) (hr : 0 ≤ result) :
    dispatch vm OP_ADD op1 op2 result = .ok (VMS_OK, { vm with
      reg := vm.reg.set (slot result)
        (wrap32 (vm.reg.get (slot op1) + vm.reg.get (slot op2))) }) := by
  have h := assign_slot vm (fun a b => .ok (wrap32 (a + b))) op1 op2 result _ h1 h2 hr rfl
  unfold dispatch
  rw [h]
  rfl

theorem dispatch_sub (vm : VirtualMachine) (op1 op2 result : Int)
    (h1 : 0 ≤ op1) (h2 : 0 ≤ op2) (hr : 0 ≤ result) :
    dispatch vm OP_SUB op1 op2 result = .ok (VMS_OK, { vm with
      reg := vm.reg.set (slot result)
        (wrap32 (vm.reg.get (slot op1) - vm.reg.get (slot op2))) }) := by
  have h := assign_slot vm (fun a b => .ok (wrap32 (a - b))) op1 op2 result _ h1 h2 hr rfl
  unfold dispatch
  rw [h]
  rfl

theorem dispatch_mul (vm : VirtualMachine) (op1 op2 result : Int)
    (h1 : 0 ≤ op1) (h2 : 0 ≤ op2) (hr : 0 ≤ result) :
    dispatch vm OP_MUL op1 op2 result = .ok (VMS_OK, { vm with
      reg := vm.reg.set (slot result)
        (wrap32 (vm.reg.get (slot op1) * vm.reg.get (slot op2))) }) := by
  have h := assign_slot vm (fun a b => .ok (wrap32 (a * b))) op1 op2 result _ h1 h2 hr rfl
  unfold dispatch
  rw [h]
  rfl

/-- C5: when the effective opcode is `DIV` or `MOD` and the register
`reg[op2 % 8]` holds 0 (`op2` non-negative), `vm_execute_op` returns
`VMS_DIV_0_ERROR` and the machine (the eight registers, the slots of `rx`
and `ry`, the program counter) is the machine before the instruction. -/
theorem division_by_zero_leaves_machine (vm : VirtualMachine)
    (opcode op1 op2 result real : Int)
    (h2 : 0 ≤ op2)
    (hreal : real_opcode vm opcode = .ok real)
    (hop : real = OP_DIV ∨ real = OP_MOD)
    (hzero : vm.reg.get (slot op2) = 0) :
    vm_execute_op vm opcode op1 op2 result = .ok (VMS_DIV_0_ERROR, vm) := by
  rw [vm_execute_op_of_real vm opcode real op1 op2 result hreal]
  unfold dispatch
  rcases hop with h | h
  · subst h
    rw [load_slot vm op2 h2, hzero]
    rfl
  · subst h
    rw [load_slot vm op2 h2, hzero]
    rfl

/-- C5, at a concrete machine: `DIV` and `MOD` of the initial machine, whose
registers are all 0. -/
theorem division_by_zero_leaves_machine_witness :
    vm_execute_op vm_init OP_DIV 1 2 3 = .ok (VMS_DIV_0_ERROR, vm_init) ∧
    vm_execute_op vm_init OP_MOD 1 2 3 = .ok (VMS_DIV_0_ERROR, vm_init) :=
  ⟨division_by_zero_leaves_machine vm_init OP_DIV 1 2 3 OP_DIV
      (by decide) (by decide) (by decide) (by decide),
   division_by_zero_leaves_machine vm_init OP_MOD 1 2 3 OP_MOD
      (by decide) (by decide) (by decide) (by decide)⟩

/-- C6: when the effective opcode is `LDS`, for the operands `op1 = V`,
`op2 = J ≥ 0`, `result = R ≥ 0`, `vm_execute_op` returns `VMS_OK` and leaves
`ry` at slot `J mod 8`, `V` in `reg[R mod 8]`, every other register, the
slot of `rx` and the program counter as they were. -/
theorem lds_effect (vm : VirtualMachine) (opcode V J R : Int)
    (hJ : 0 ≤ J) (hR : 0 ≤ R)
    (hreal : real_opcode vm opcode = .ok OP_LDS) :
    ∃ vm', vm_execute_op vm opcode V J R = .ok (VMS_OK, vm') ∧
      vm'.ry = J % 8 ∧
      vm'.reg.get (slot R) = V ∧
      (∀ k, k ≠ slot R → vm'.reg.get k = vm.reg.get k) ∧
      vm'.rx = vm.rx ∧
      vm'.pc = vm.pc := by
  refine ⟨{ vm with ry := Int.tmod J NUM_REGISTERS, reg := vm.reg.set (slot R) V }, ?_, ?_, ?_,
    ?_, rfl, rfl⟩
  · rw [vm_execute_op_of_real vm opcode OP_LDS V J R hreal]
    unfold dispatch
    rw [store_slot _ R V hR]
    rfl
  · exact Int.tmod_eq_emod hJ (by decide)
  · exact Mathlib.Vector.get_set_same _ _ _
  · intro k hk
    exact Mathlib.Vector.get_set_of_ne (Ne.symm hk) V

/-- C6, at a concrete machine: `LDS(0x4a, 9, 11)` on the initial machine
moves `ry` to slot 1 and loads register 3. -/
theorem lds_effect_witness :
    ∃ vm', vm_execute_op vm_init OP_LDS 74 9 11 = .ok (VMS_OK, vm') ∧
      vm'.ry = 9 % 8 ∧
      vm'.reg.get (slot 11) = 74 ∧
      (∀ k, k ≠ slot 11 → vm'.reg.get k = vm_init.reg.get k) ∧
      vm'.rx = vm_init.rx ∧
      vm'.pc = vm_init.pc :=
  lds_effect vm_init OP_LDS 74 9 11 (by decide) (by decide) (by decide)

/-- C7: when the effective opcode is `ADD`, `SUB` or `MUL` and the operand
fields are non-negative, `vm_execute_op` returns `VMS_OK` and leaves in
`reg[result % 8]` the sum, difference or product of the values that
`reg[op1 % 8]` and `reg[op2 % 8]` held before the instruction, wrapped to 32
bits; every other register, the slots of `rx` and `ry` and the program
counter are as they were. -/
theorem add_sub_mul_effect (vm : VirtualMachine) (opcode op1 op2 result real : Int)
    (h1 : 0 ≤ op1) (h2 : 0 ≤ op2) (hr : 0 ≤ result)
    (hreal : real_opcode vm opcode = .ok real)
    (hop : real = OP_ADD ∨ real = OP_SUB ∨ real = OP_MUL) :
    ∃ vm', vm_execute_op vm opcode op1 op2 result = .ok (VMS_OK, vm') ∧
      (real = OP_ADD → vm'.reg.get (slot result)
        = wrap32 (vm.reg.get (slot op1) + vm.reg.get (slot op2))) ∧
      (real = OP_SUB → vm'.reg.get (slot result)
        = wrap32 (vm.reg.get (slot op1) - vm.reg.get (slot op2))) ∧
      (real = OP_MUL → vm'.reg.get (slot result)
        = wrap32 (vm.reg.get (slot op1) * vm.reg.get (slot op2))) ∧
      (∀ k, k ≠ slot result → vm'.reg.get k = vm.reg.get k) ∧
      vm'.rx = vm.rx ∧ vm'.ry = vm.ry ∧ vm'.pc = vm.pc := by
  rw [vm_execute_op_of_real vm opcode real op1 op2 result hreal]
  rcases hop with h | h | h
  · subst h
    refine ⟨_, dispatch_add vm op1 op2 result h1 h2 hr, ?_, ?_, ?_, ?_, rfl, rfl, rfl⟩
    · intro _
      exact Mathlib.Vector.get_set_same _ _ _
    · intro h; exact absurd h (by decide)
    · intro h; exact absurd h (by decide)
    · intro k hk
      exact Mathlib.Vector.get_set_of_ne (Ne.symm hk) _
  · subst h
    refine ⟨_, dispatch_sub vm op1 op2 result h1 h2 hr, ?_, ?_, ?_, ?_, rfl, rfl, rfl⟩
    · intro h; exact absurd h (by decide)
    · intro _
      exact Mathlib.Vector.get_set_same _ _ _
    · intro h; exact absurd h (by decide)
    · intro k hk
      exact Mathlib.Vector.get_set_of_ne (Ne.symm hk) _
  · subst h
    refine ⟨_, dispatch_mul vm op1 op2 result h1 h2 hr, ?_, ?_, ?_, ?_, rfl, rfl, rfl⟩
    · intro h; exact absurd h (by decide)
    · intro h; exact absurd h (by decide)
    · intro _
      exact Mathlib.Vector.get_set_same _ _ _
    · intro k hk
      exact Mathlib.Vector.get_set_of_ne (Ne.symm hk) _

/-- C7, at a concrete machine: `ADD(0, 1, 0)` at `vm_max` adds `3` to
`INT32_MAX` in place; the stored sum is the wrapped one. -/
theorem add_sub_mul_effect_witness :
    wrap32 (vm_max.reg.get (slot 0) + vm_max.reg.get (slot 1)) = -2147483646 ∧
    ∃ vm', vm_execute_op vm_max OP_ADD 0 1 0 = .ok (VMS_OK, vm') ∧
      (OP_ADD = OP_ADD → vm'.reg.get (slot 0)
        = wrap32 (vm_max.reg.get (slot 0) + vm_max.reg.get (slot 1))) ∧
      (OP_ADD = OP_SUB → vm'.reg.get (slot 0)
        = wrap32 (vm_max.reg.get (slot 0) - vm_max.reg.get (slot 1))) ∧
      (OP_ADD = OP_MUL → vm'.reg.get (slot 0)
        = wrap32 (vm_max.reg.get (slot 0) * vm_max.reg.get (slot 1))) ∧
      (∀ k, k ≠ slot 0 → vm'.reg.get k = vm_max.reg.get k) ∧
      vm'.rx = vm_max.rx ∧ vm'.ry = vm_max.ry ∧ vm'.pc = vm_max.pc :=
  ⟨by decide, add_sub_mul_effect vm_max OP_ADD 0 1 0 OP_ADD (by decide) (by decide) (by decide)
    (by decide) (by decide)⟩

/-! ## Division and remainder -/

theorem neg_tmod_eq (a b : Int) : Int.tmod (-a) b = -Int.tmod a b := by
  rw [Int.tmod_def, Int.tmod_def, Int.neg_tdiv]
  ring

/-- The remainder of C: smaller than the divisor in absolute value, and zero
or of the sign of the dividend. -/
theorem tmod_truncating (a b : Int) (hb : b ≠ 0) :
    |Int.tmod a b| < |b| ∧ 0 ≤ Int.tmod a b * a := by
  have key : ∀ x y : Int, 0 ≤ x → 0 < y → 0 ≤ Int.tmod x y ∧ Int.tmod x y < y :=
    fun x y hx hy => ⟨Int.tmod_nonneg y hx, Int.tmod_lt_of_pos x hy⟩
  rcases lt_or_gt_of_ne hb with hneg | hpos
  · have hb' : |b| = -b := abs_of_neg hneg
    rcases le_or_lt 0 a with ha | ha
    · have h := key a (-b) ha (by omega)
      rw [Int.tmod_neg] at h
      refine ⟨?_, mul_nonneg h.1 ha⟩
      rw [hb', abs_of_nonneg h.1]
      exact h.2
    · have h := key (-a) (-b) (by omega) (by omega)
      rw [Int.tmod_neg, neg_tmod_eq] at h
      refine ⟨?_, mul_nonneg_of_nonpos_of_nonpos (by omega) (by omega)⟩
      rw [hb', abs_of_nonpos (by omega)]
      exact h.2
  · have hb' : |b| = b := abs_of_pos hpos
    rcases le_or_lt 0 a with ha | ha
    · have h := key a b ha hpos
      refine ⟨?_, mul_nonneg h.1 ha⟩
      rw [hb', abs_of_nonneg h.1]
      exact h.2
    · have h := key (-a) b (by omega) hpos
      rw [neg_tmod_eq] at h
      refine ⟨?_, mul_nonneg_of_nonpos_of_nonpos (by omega) (by omega)⟩
      rw [hb', abs_of_nonpos (by omega)]
      exact h.2

theorem dispatch_div (vm : VirtualMachine) (op1 op2 result : Int)
    (h1 : 0 ≤ op1) (h2 : 0 ≤ op2) (hr : 0 ≤ result)
    (hb : vm.reg.get (slot op2) ≠ 0)
    (hov : ¬ (vm.reg.get (slot op1) = INT32_MIN ∧ vm.reg.get (slot op2) = -1)) :
    dispatch vm OP_DIV op1 op2 result = .ok (VMS_OK, { vm with
      reg := vm.reg.set (slot result)
        (Int.tdiv (vm.reg.get (slot op1)) (vm.reg.get (slot op2))) }) := by
  have hf : c_div (vm.reg.get (slot op1)) (vm.reg.get (slot op2))
      = .ok (Int.tdiv (vm.reg.get (slot op1)) (vm.reg.get (slot op2))) := by
    unfold c_div
    rw [if_neg hov]
  have h := assign_slot vm c_div op1 op2 result _ h1 h2 hr hf
  unfold dispatch
  rw [h, load_slot vm op2 h2]
  simp only [if_pos hb]
  rfl

theorem dispatch_mod (vm : VirtualMachine) (op1 op2 result : Int)
    (h1 : 0 ≤ op1) (h2 : 0 ≤ op2) (hr : 0 ≤ result)
    (hb : vm.reg.get (slot op2) ≠ 0)
    (hov : ¬ (vm.reg.get (slot op1) = INT32_MIN ∧ vm.reg.get (slot op2) = -1)) :
    dispatch vm OP_MOD op1 op2 result = .ok (VMS_OK, { vm with
      reg := vm.reg.set (slot result)
        (Int.tmod (vm.reg.get (slot op1)) (vm.reg.get (slot op2))) }) := by
  have hf : c_mod (vm.reg.get (slot op1)) (vm.reg.get (slot op2))
      = .ok (Int.tmod (vm.reg.get (slot op1)) (vm.reg.get (slot op2))) := by
    unfold c_mod
    rw [if_neg hov]
  have h := assign_slot vm c_mod op1 op2 result _ h1 h2 hr hf
  unfold dispatch
  rw [h, load_slot vm op2 h2]
  simp only [if_pos hb]
  rfl

/-- C8, as stated, fails.  After the two loads of `program_min_neg_one`
register 0 holds `INT32_MIN`, register 1 holds `-1` and the effective opcode
of an encoded `DIV` is `DIV`; the quotient `2147483648` is not an `int32_t`,
the C division has no defined result, and `vm_execute_op` does not return
`VMS_OK` with the quotient in `reg[3]`.  At `vm_max`, where the divisor
`reg[1]` is `3`, a `DIV` with the field `op1 = -1` reads outside the register
file. -/
theorem div_int32_min_by_minus_one :
    vm_execute_steps program_min_neg_one 8 2 vm_init = some vm_min_neg_one ∧
    real_opcode vm_min_neg_one OP_DIV = .ok OP_DIV ∧
    vm_min_neg_one.reg.get (slot 0) = INT32_MIN ∧
    vm_min_neg_one.reg.get (slot 1) = -1 ∧
    Int.tdiv INT32_MIN (-1) = 2147483648 ∧
    ¬ isInt32 (Int.tdiv INT32_MIN (-1)) ∧
    vm_execute_op vm_min_neg_one OP_DIV 0 1 3 = .error .divOverflow ∧
    (¬ ∃ vm', vm_execute_op vm_min_neg_one OP_DIV 0 1 3 = .ok (VMS_OK, vm') ∧
      vm'.reg.get (slot 3)
        = Int.tdiv (vm_min_neg_one.reg.get (slot 0)) (vm_min_neg_one.reg.get (slot 1))) ∧
    real_opcode vm_max OP_DIV = .ok OP_DIV ∧
    vm_max.reg.get (slot 1) = 3 ∧
    vm_execute_op vm_max OP_DIV (-1) 1 3 = .error .regOutOfBounds := by
  refine ⟨by decide, by decide, by decide, by decide, by decide, by decide, by decide, ?_,
    by decide, by decide, by decide⟩
  rintro ⟨vm', h, _⟩
  have h' : vm_execute_op vm_min_neg_one OP_DIV 0 1 3 = .error .divOverflow := by decide
  rw [h'] at h
  cases h

/-- C8, amended: when the effective opcode is `DIV`, the operand fields are
non-negative, the divisor `b = reg[op2 % 8]` is non-zero and the operands are
not the pair `INT32_MIN`, `-1`, `vm_execute_op` returns `VMS_OK` and leaves in
`reg[result % 8]` the quotient of `a = reg[op1 % 8]` by `b` truncated toward
zero: the `q` with `a = q * b + r`, `|r| < |b|` and `r` zero or of the sign of
`a`.  Every other register, the slots of `rx` and `ry` and the program
counter are as they were. -/
theorem div_effect (vm : VirtualMachine) (opcode op1 op2 result : Int)
    (h1 : 0 ≤ op1) (h2 : 0 ≤ op2) (hr : 0 ≤ result)
    (hreal : real_opcode vm opcode = .ok OP_DIV)
    (hb : vm.reg.get (slot op2) ≠ 0)
    (hov : ¬ (vm.reg.get (slot op1) = INT32_MIN ∧ vm.reg.get (slot op2) = -1)) :
    ∃ vm' r, vm_execute_op vm opcode op1 op2 result = .ok (VMS_OK, vm') ∧
      vm'.reg.get (slot result) = Int.tdiv (vm.reg.get (slot op1)) (vm.reg.get (slot op2)) ∧
      vm.reg.get (slot op1) = vm'.reg.get (slot result) * vm.reg.get (slot op2) + r ∧
      |r| < |vm.reg.get (slot op2)| ∧
      0 ≤ r * vm.reg.get (slot op1) ∧
      (∀ k, k ≠ slot result → vm'.reg.get k = vm.reg.get k) ∧
      vm'.rx = vm.rx ∧ vm'.ry = vm.ry ∧ vm'.pc = vm.pc := by
  rw [vm_execute_op_of_real vm opcode OP_DIV op1 op2 result hreal]
  have ht := tmod_truncating (vm.reg.get (slot op1)) (vm.reg.get (slot op2)) hb
  have hq : (vm.reg.set (slot result)
      (Int.tdiv (vm.reg.get (slot op1)) (vm.reg.get (slot op2)))).get (slot result)
      = Int.tdiv (vm.reg.get (slot op1)) (vm.reg.get (slot op2)) :=
    Mathlib.Vector.get_set_same _ _ _
  refine ⟨_, Int.tmod (vm.reg.get (slot op1)) (vm.reg.get (slot op2)),
    dispatch_div vm op1 op2 result h1 h2 hr hb hov, hq, ?_, ht.1, ht.2, ?_, rfl, rfl, rfl⟩
  · show _ = (vm.reg.set (slot result) _).get (slot result) * _ + _
    rw [hq]
    have := Int.tmod_add_tdiv (vm.reg.get (slot op1)) (vm.reg.get (slot op2))
    linarith
  · intro k hk
    exact Mathlib.Vector.get_set_of_ne (Ne.symm hk) _

/-- C8 amended, at a concrete machine: `DIV(0, 1, 3)` at `vm_neg_dividend`
divides `-7` by `2` and stores `-3`. -/
theorem div_effect_witness :
    Int.tdiv (vm_neg_dividend.reg.get (slot 0)) (vm_neg_dividend.reg.get (slot 1)) = -3 ∧
    ∃ vm' r, vm_execute_op vm_neg_dividend OP_DIV 0 1 3 = .ok (VMS_OK, vm') ∧
      vm'.reg.get (slot 3)
        = Int.tdiv (vm_neg_dividend.reg.get (slot 0)) (vm_neg_dividend.reg.get (slot 1)) ∧
      vm_neg_dividend.reg.get (slot 0)
        = vm'.reg.get (slot 3) * vm_neg_dividend.reg.get (slot 1) + r ∧
      |r| < |vm_neg_dividend.reg.get (slot 1)| ∧
      0 ≤ r * vm_neg_dividend.reg.get (slot 0) ∧
      (∀ k, k ≠ slot 3 → vm'.reg.get k = vm_neg_dividend.reg.get k) ∧
      vm'.rx = vm_neg_dividend.rx ∧ vm'.ry = vm_neg_dividend.ry ∧
      vm'.pc = vm_neg_dividend.pc :=
  ⟨by decide, div_effect vm_neg_dividend OP_DIV 0 1 3 (by decide) (by decide) (by decide)
    (by decide) (by decide) (by decide)⟩

/-- The remainder that `MOD` stores when the C operation is defined: for
non-negative operand fields, a divisor `b = reg[op2 % 8]` that is not zero and
operands that are not the pair `INT32_MIN`, `-1`, `vm_execute_op` returns
`VMS_OK` and leaves in `reg[result % 8]` the `r` with `a = q * b + r`,
`|r| < |b|` and `r` zero or of the sign of the dividend `a = reg[op1 % 8]`. -/
theorem mod_effect (vm : VirtualMachine) (opcode op1 op2 result : Int)
    (h1 : 0 ≤ op1) (h2 : 0 ≤ op2) (hr : 0 ≤ result)
    (hreal : real_opcode vm opcode = .ok OP_MOD)
    (hb : vm.reg.get (slot op2) ≠ 0)
    (hov : ¬ (vm.reg.get (slot op1) = INT32_MIN ∧ vm.reg.get (slot op2) = -1)) :
    ∃ vm' q, vm_execute_op vm opcode op1 op2 result = .ok (VMS_OK, vm') ∧
      vm.reg.get (slot op1) = q * vm.reg.get (slot op2) + vm'.reg.get (slot result) ∧
      |vm'.reg.get (slot result)| < |vm.reg.get (slot op2)| ∧
      0 ≤ vm'.reg.get (slot result) * vm.reg.get (slot op1) ∧
      (∀ k, k ≠ slot result → vm'.reg.get k = vm.reg.get k) ∧
      vm'.rx = vm.rx ∧ vm'.ry = vm.ry ∧ vm'.pc = vm.pc := by
  rw [vm_execute_op_of_real vm opcode OP_MOD op1 op2 result hreal]
  have ht := tmod_truncating (vm.reg.get (slot op1)) (vm.reg.get (slot op2)) hb
  have hq : (vm.reg.set (slot result)
      (Int.tmod (vm.reg.get (slot op1)) (vm.reg.get (slot op2)))).get (slot result)
      = Int.tmod (vm.reg.get (slot op1)) (vm.reg.get (slot op2)) :=
    Mathlib.Vector.get_set_same _ _ _
  refine ⟨_, Int.tdiv (vm.reg.get (slot op1)) (vm.reg.get (slot op2)),
    dispatch_mod vm op1 op2 result h1 h2 hr hb hov, ?_, ?_, ?_, ?_, rfl, rfl, rfl⟩
  · show _ = _ + (vm.reg.set (slot result) _).get (slot result)
    rw [hq]
    have := Int.tmod_add_tdiv (vm.reg.get (slot op1)) (vm.reg.get (slot op2))
    linarith
  · show |(vm.reg.set (slot result) _).get (slot result)| < _
    rw [hq]
    exact ht.1
  · show 0 ≤ (vm.reg.set (slot result) _).get (slot result) * _
    rw [hq]
    exact ht.2
  · intro k hk
    exact Mathlib.Vector.get_set_of_ne (Ne.symm hk) _

/-- C9: the code misses the remainder of `INT32_MIN` by `-1`.  At
`vm_min_neg_one`, reached by the two loads of `program_min_neg_one`, the
effective opcode of an encoded `MOD` is `MOD` and the divisor `reg[1] = -1` is
not zero; the remainder is `0`, yet `INT32_MIN % -1` has no defined result in
C and `vm_execute_op` neither stores it nor returns `VMS_OK`.  At `vm_max`,
where the divisor `reg[1]` is `3`, a `MOD` with the field `op1 = -1` or
`result = -1` accesses a register outside the register file. -/
theorem mod_int32_min_by_minus_one :
    vm_execute_steps program_min_neg_one 8 2 vm_init = some vm_min_neg_one ∧
    real_opcode vm_min_neg_one OP_MOD = .ok OP_MOD ∧
    vm_min_neg_one.reg.get (slot 0) = INT32_MIN ∧
    vm_min_neg_one.reg.get (slot 1) = -1 ∧
    Int.tmod INT32_MIN (-1) = 0 ∧
    vm_execute_op vm_min_neg_one OP_MOD 0 1 3 = .error .divOverflow ∧
    real_opcode vm_max OP_MOD = .ok OP_MOD ∧
    vm_max.reg.get (slot 1) = 3 ∧
    vm_execute_op vm_max OP_MOD (-1) 1 3 = .error .regOutOfBounds ∧
    vm_execute_op vm_max OP_MOD 0 1 (-1) = .error .regOutOfBounds := by
  refine ⟨by decide, by decide, by decide, by decide, by decide, by decide, by decide,
    by decide, by decide, by decide⟩

/-! ## The loop of `vm_execute` -/

theorem store_pc (vm vm' : VirtualMachine) (i v : Int) (h : store vm i v = .ok vm') :
    vm'.pc = vm.pc := by
  unfold store at h
  cases hk : regIndex i with
  | none => rw [hk] at h; cases h
  | some k => rw [hk] at h; cases h; rfl

theorem assign_pc (vm vm' : VirtualMachine) (f : Int → Int → Except Fault Int)
    (op1 op2 result : Int) (h : assign vm f op1 op2 result = .ok vm') :
    vm'.pc = vm.pc := by
  unfold assign at h
  cases ha : load vm (Int.tmod op1 NUM_REGISTERS) with
  | error e => rw [ha] at h; cases h
  | ok a =>
    cases hb : load vm (Int.tmod op2 NUM_REGISTERS) with
    | error e => rw [ha, hb] at h; cases h
    | ok b =>
      cases hv : f a b with
      | error e => simp only [ha, hb, hv] at h; cases h
      | ok v =>
        simp only [ha, hb, hv] at h
        exact store_pc vm vm' _ v h

/-- A step of the switch that ends in `break`: status `VMS_OK`, program
counter untouched. -/
theorem break_result (vm vm' : VirtualMachine) (r : Except Fault VirtualMachine) (st : Int)
    (hr : ∀ v, r = .ok v → v.pc = vm.pc)
    (h : (match r with
      | .error e => (.error e : Except Fault (Int × VirtualMachine))
      | .ok v => .ok (VMS_OK, v)) = .ok (st, vm')) :
    vm'.pc = vm.pc ∧
      (st = VMS_OK ∨ ((st = VMS_HALTED ∨ st = VMS_DIV_0_ERROR) ∧ vm' = vm)) := by
  cases r with
  | error e => cases h
  | ok v =>
    cases h
    exact ⟨hr _ rfl, Or.inl rfl⟩

/-- What the switch of `vm_execute_op` can return: `VMS_OK`, or one of the two
error statuses with the machine untouched; the program counter is never
written. -/
theorem dispatch_result (vm vm' : VirtualMachine) (real op1 op2 result st : Int)
    (h : dispatch vm real op1 op2 result = .ok (st, vm')) :
    vm'.pc = vm.pc ∧
      (st = VMS_OK ∨ ((st = VMS_HALTED ∨ st = VMS_DIV_0_ERROR) ∧ vm' = vm)) := by
  unfold dispatch at h
  split_ifs at h with hadd hsub hmul hdiv hmod hlds
  · exact break_result vm vm' _ st (fun v hv => assign_pc vm v _ op1 op2 result hv) h
  · exact break_result vm vm' _ st (fun v hv => assign_pc vm v _ op1 op2 result hv) h
  · exact break_result vm vm' _ st (fun v hv => assign_pc vm v _ op1 op2 result hv) h
  · cases hd : load vm (Int.tmod op2 NUM_REGISTERS) with
    | error e => rw [hd] at h; cases h
    | ok d =>
      rw [hd] at h
      simp only at h
      split_ifs at h with hz
      · exact break_result vm vm' _ st (fun v hv => assign_pc vm v _ op1 op2 result hv) h
      · cases h
        exact ⟨rfl, Or.inr ⟨Or.inr rfl, rfl⟩⟩
  · cases hd : load vm (Int.tmod op2 NUM_REGISTERS) with
    | error e => rw [hd] at h; cases h
    | ok d =>
      rw [hd] at h
      simp only at h
      split_ifs at h with hz
      · exact break_result vm vm' _ st (fun v hv => assign_pc vm v _ op1 op2 result hv) h
      · cases h
        exact ⟨rfl, Or.inr ⟨Or.inr rfl, rfl⟩⟩
  · exact break_result vm vm' _ st
      (fun v hv => store_pc { vm with ry := Int.tmod op2 NUM_REGISTERS } v _ _ hv) h
  · cases h
    exact ⟨rfl, Or.inr ⟨Or.inl rfl, rfl⟩⟩

theorem vm_execute_op_result (vm vm' : VirtualMachine) (opcode op1 op2 result st : Int)
    (h : vm_execute_op vm opcode op1 op2 result = .ok (st, vm')) :
    vm'.pc = vm.pc ∧
      (st = VMS_OK ∨ ((st = VMS_HALTED ∨ st = VMS_DIV_0_ERROR) ∧ vm' = vm)) := by
  unfold vm_execute_op at h
  cases hreal : real_opcode vm opcode with
  | error e => rw [hreal] at h; cases h
  | ok real =>
    rw [hreal] at h
    exact dispatch_result vm vm' real op1 op2 result st h

theorem fetch_nonneg (program : List Int) (i w : Int) (h : fetch program i = .ok w) :
    0 ≤ i := by
  unfold fetch at h
  by_contra hneg
  rw [if_neg hneg] at h
  cases h

/-- An iteration that gets as far as the call of `vm_execute_op` has fetched
at a non-negative program counter and has the result of that call. -/
theorem vm_execute_body_result (vm vm' : VirtualMachine) (program : List Int) (st : Int)
    (h : vm_execute_body vm program = .ok (st, vm')) :
    0 ≤ vm.pc ∧ vm'.pc = vm.pc ∧
      (st = VMS_OK ∨ ((st = VMS_HALTED ∨ st = VMS_DIV_0_ERROR) ∧ vm' = vm)) := by
  unfold vm_execute_body at h
  cases hf : fetch_instruction vm program with
  | error e => rw [hf] at h; cases h
  | ok ins =>
    obtain ⟨opcode, op1, op2, result⟩ := ins
    rw [hf] at h
    simp only at h
    have hpc : 0 ≤ vm.pc := by
      unfold fetch_instruction at hf
      cases h0 : fetch program vm.pc with
      | error e => rw [h0] at hf; cases hf
      | ok w => exact fetch_nonneg program vm.pc w h0
    cases hd : vm_display_debug_op vm opcode op1 op2 result with
    | error e => rw [hd] at h; cases h
    | ok s =>
      rw [hd] at h
      exact ⟨hpc, vm_execute_op_result vm vm' opcode op1 op2 result st h⟩

/-- The loop passes through the machines of `vm_execute_steps`. -/
theorem vm_execute_loop_steps (program : List Int) (program_size : Int) (fuel : Nat) :
    ∀ (n : Nat) (vm vmn : VirtualMachine),
      vm_execute_steps program program_size n vm = some vmn →
      vm_execute_loop program program_size (fuel + n) vm
        = vm_execute_loop program program_size fuel vmn := by
  intro n
  induction n with
  | zero =>
    intro vm vmn h
    simp only [vm_execute_steps, Option.some.injEq] at h
    rw [h]
    rfl
  | succ n ih =>
    intro vm vmn h
    rw [vm_execute_steps] at h
    split_ifs at h with hpc
    cases hb : vm_execute_body vm program with
    | error e => rw [hb] at h; cases h
    | ok r =>
      obtain ⟨st, vm1⟩ := r
      rw [hb] at h
      simp only at h
      split_ifs at h with hst
      have hloop : vm_execute_loop program program_size (fuel + (n + 1)) vm
          = vm_execute_loop program program_size (fuel + n) (advance vm1) := by
        show vm_execute_loop program program_size ((fuel + n) + 1) vm = _
        rw [vm_execute_loop, if_pos hpc, hb]
        simp only
        rw [if_neg hst]
      rw [hloop]
      exact ih (advance vm1) vmn h

/-- The program counter after `n` iterations, as long as it is one at which a
word can be fetched. -/
theorem vm_execute_steps_pc (program : List Int) (program_size : Int)
    (hsize : program_size ≤ INT32_MAX) :
    ∀ (n : Nat) (vm vmn : VirtualMachine),
      vm_execute_steps program program_size n vm = some vmn → 0 ≤ vmn.pc →
      0 ≤ vm.pc ∧ vmn.pc = vm.pc + 4 * n := by
  intro n
  induction n with
  | zero =>
    intro vm vmn h hn
    simp only [vm_execute_steps, Option.some.injEq] at h
    subst h
    exact ⟨hn, by simp⟩
  | succ n ih =>
    intro vm vmn h hn
    rw [vm_execute_steps] at h
    split_ifs at h with hpc
    cases hb : vm_execute_body vm program with
    | error e => rw [hb] at h; cases h
    | ok r =>
      obtain ⟨st, vm1⟩ := r
      rw [hb] at h
      simp only at h
      split_ifs at h with hst
      obtain ⟨h0, h1, _⟩ := vm_execute_body_result vm vm1 program st hb
      obtain ⟨ha, hb'⟩ := ih (advance vm1) vmn h hn
      have hadv : (advance vm1).pc = wrap32 (vm.pc + 4) := by
        show wrap32 (vm1.pc + PC_OFFSET) = _
        rw [h1]
      rw [hadv] at ha hb'
      unfold INT32_MAX at hsize
      unfold wrap32 at ha hb'
      refine ⟨h0, ?_⟩
      push_cast
      omega

/-- C10: `vm_execute` stops at the first instruction for which
`vm_execute_op` returns a non-zero status.  When `n` iterations of the loop
from `vm` ended with `VMS_OK` and led to the machine `vmn`, and the next
instruction is fetched, traced and makes `vm_execute_op` return `st ≠ 0`,
then `vm_execute` returns `st`, which is `VMS_HALTED` or `VMS_DIV_0_ERROR`,
with the machine `vmn` that the instruction found: the instruction changed
nothing, and the program counter is the offset `pc + 4 n` of that
instruction.  (`program_size` is an `int`.) -/
theorem vm_execute_stops_at_first_error (vm vmn vm' : VirtualMachine) (program : List Int)
    (program_size : Int) (n : Nat) (opcode op1 op2 result st : Int) (trace : String)
    (hsize : program_size ≤ INT32_MAX)
    (hrun : vm_execute_steps program program_size n vm = some vmn)
    (hpc : vmn.pc < program_size)
    (hfetch : fetch_instruction vmn program = .ok (opcode, op1, op2, result))
    (htrace : vm_display_debug_op vmn opcode op1 op2 result = .ok trace)
    (hop : vm_execute_op vmn opcode op1 op2 result = .ok (st, vm'))
    (hst : st ≠ 0) :
    vm_execute vm program program_size = .ok (st, vmn) ∧
      (st = VMS_HALTED ∨ st = VMS_DIV_0_ERROR) ∧
      vm' = vmn ∧
      vmn.pc = vm.pc + 4 * n := by
  have hbody : vm_execute_body vmn program = .ok (st, vm') := by
    unfold vm_execute_body
    rw [hfetch]
    simp only
    rw [htrace]
    exact hop
  obtain ⟨h0, _, hres⟩ := vm_execute_body_result vmn vm' program st hbody
  have hres' : (st = VMS_HALTED ∨ st = VMS_DIV_0_ERROR) ∧ vm' = vmn := by
    rcases hres with h | h
    · exact absurd h hst
    · exact h
  obtain ⟨_, hpcn⟩ := vm_execute_steps_pc program program_size hsize n vm vmn hrun h0
  have hlast : ∀ fuel, vm_execute_loop program program_size (fuel + 1) vmn = .ok (st, vmn) := by
    intro fuel
    rw [vm_execute_loop, if_pos hpc, hbody]
    simp only
    rw [if_pos hst, hres'.2]
  refine ⟨?_, hres'.1, hres'.2, hpcn⟩
  unfold vm_execute
  have hfuel : (program_size - vm.pc).toNat + 1 = ((program_size - vm.pc).toNat - n + 1) + n := by
    omega
  rw [hfuel, vm_execute_loop_steps program program_size _ n vm vmn hrun]
  exact hlast _

/-- C10, at the program of `main`: six instructions run with `VMS_OK`, the
seventh halts, and `vm_execute` returns `VMS_HALTED` with the machine as the
seventh instruction found it, at program counter 24. -/
theorem vm_execute_stops_at_first_error_witness :
    vm_execute vm_init program_main program_main_size = .ok (VMS_HALTED, vm_main_before_halt) ∧
      (VMS_HALTED = VMS_HALTED ∨ VMS_HALTED = VMS_DIV_0_ERROR) ∧
      vm_main_before_halt = vm_main_before_halt ∧
      vm_main_before_halt.pc = vm_init.pc + 4 * (6 : Nat) :=
  vm_execute_stops_at_first_error vm_init vm_main_before_halt vm_main_before_halt program_main
    program_main_size 6 OP_HALT 0x21 0x37 0x21372137 VMS_HALTED "OP_HALT!\n\n"
    (by decide) (by decide) (by decide) (by decide) (by decide) (by decide) (by decide)

/-! ## The program of `main` -/

/-- Iterations compose: `a + b` iterations are `a` iterations, then `b`. -/
theorem vm_execute_steps_add (program : List Int) (program_size : Int) :
    ∀ (a b : Nat) (vm : VirtualMachine),
      vm_execute_steps program program_size (a + b) vm
        = (vm_execute_steps program program_size a vm).bind
            (vm_execute_steps program program_size b) := by
  intro a
  induction a with
  | zero =>
    intro b vm
    rw [Nat.zero_add]
    rfl
  | succ a ih =>
    intro b vm
    have e : a + 1 + b = (a + b) + 1 := by omega
    rw [e, vm_execute_steps, vm_execute_steps]
    split_ifs with hpc
    · cases hb : vm_execute_body vm program with
      | error f => rfl
      | ok r =>
        obtain ⟨st, vm1⟩ := r
        simp only
        split_ifs with hst
        · rfl
        · exact ih b (advance vm1)
    · rfl

/-- C12: the run of `program_main` from `vm_init`, with the `program_size`
that `main` passes.  The first three instructions run as `LDS` and leave
`reg[1] = 0x4a`, `reg[2] = 0x40`, `reg[0] = 0x29` and `ry` at slot 1; the
fourth, encoded `ADD(2, 1, 1)`, has the effective opcode `DIV` and leaves
`reg[1] = 0`; the fifth, the same words, runs as `ADD` and leaves
`reg[1] = 0x40`; the seventh, at program counter 24, halts and `vm_execute`
returns `VMS_HALTED`.  Every instruction that is reached is fetched from
inside the 28 words of the program. -/
theorem reference_run :
    program_main.length = 28 ∧
    real_opcode vm_init OP_LDS = .ok OP_LDS ∧
    (∃ vm1, vm_execute_steps program_main program_main_size 1 vm_init = some vm1 ∧
      real_opcode vm1 OP_LDS = .ok OP_LDS) ∧
    (∃ vm2, vm_execute_steps program_main program_main_size 2 vm_init = some vm2 ∧
      real_opcode vm2 OP_LDS = .ok OP_LDS) ∧
    vm_execute_steps program_main program_main_size 3 vm_init = some vm_main_after_loads ∧
    vm_main_after_loads.reg.get 1 = 0x4a ∧
    vm_main_after_loads.reg.get 2 = 0x40 ∧
    vm_main_after_loads.reg.get 0 = 0x29 ∧
    vm_main_after_loads.ry = 1 ∧
    fetch_instruction vm_main_after_loads program_main = .ok (OP_ADD, 2, 1, 1) ∧
    real_opcode vm_main_after_loads OP_ADD = .ok OP_DIV ∧
    vm_execute_op vm_main_after_loads OP_ADD 2 1 1 = .ok (VMS_OK, { vm_main_after_four with
      pc := 12 }) ∧
    vm_execute_steps program_main program_main_size 4 vm_init = some vm_main_after_four ∧
    vm_main_after_four.reg.get 1 = 0 ∧
    fetch_instruction vm_main_after_four program_main = .ok (OP_ADD, 2, 1, 1) ∧
    real_opcode vm_main_after_four OP_ADD = .ok OP_ADD ∧
    vm_execute_steps program_main program_main_size 5 vm_init = some vm_main_after_five ∧
    vm_main_after_five.reg.get 1 = 0x40 ∧
    vm_execute_steps program_main program_main_size 6 vm_init = some vm_main_before_halt ∧
    vm_main_before_halt.pc = 24 ∧
    fetch_instruction vm_main_before_halt program_main
      = .ok (OP_HALT, 0x21, 0x37, 0x21372137) ∧
    real_opcode vm_main_before_halt OP_HALT = .ok OP_HALT ∧
    vm_execute vm_init program_main program_main_size
      = .ok (VMS_HALTED, vm_main_before_halt) ∧
    (∀ n vm, vm_execute_steps program_main program_main_size n vm_init = some vm →
      vm.pc + 3 < program_main.length) := by
  refine ⟨by decide, by decide, ⟨_, rfl, by decide⟩, ⟨_, rfl, by decide⟩, ?_⟩
  iterate 19 refine ⟨by decide, ?_⟩
  intro n vm h
  have hhalt : vm_execute_body vm_main_before_halt program_main
      = .ok (VMS_HALTED, vm_main_before_halt) := by decide
  have hsix : vm_execute_steps program_main program_main_size 6 vm_init
      = some vm_main_before_halt := by decide
  have h7 : ∀ m, vm_execute_steps program_main program_main_size (6 + (m + 1)) vm_init
      = none := by
    intro m
    rw [vm_execute_steps_add, hsix, Option.some_bind, vm_execute_steps, hhalt]
    simp
  rcases Nat.lt_or_ge n 7 with hn | hn
  · have hsmall : ∀ k < 7, ∀ v ∈ vm_execute_steps program_main program_main_size k vm_init,
        v.pc + 3 < program_main.length := by decide
    exact hsmall n hn vm h
  · obtain ⟨m, rfl⟩ : ∃ m, n = 6 + (m + 1) := ⟨n - 7, by omega⟩
    rw [h7 m] at h
    cases h

/-- C13: the sixth instruction of `program_main`, encoded `LDS(0, 0, 0)` and
commented `Reset rx, ry` in `main`, is not executed as a load.  The registers
that `rx` and `ry` reference hold `0x29` and `0x40`, the effective opcode is
`MOD`, and the instruction leaves `reg[0] = 0x29 % 0x29 = 0` and `ry` at slot
1, where a load would have moved `ry` to slot 0. -/
theorem sixth_instruction_is_mod :
    vm_execute_steps program_main program_main_size 5 vm_init = some vm_main_after_five ∧
    fetch_instruction vm_main_after_five program_main = .ok (OP_LDS, 0, 0, 0) ∧
    load vm_main_after_five vm_main_after_five.rx = .ok 0x29 ∧
    load vm_main_after_five vm_main_after_five.ry = .ok 0x40 ∧
    real_opcode vm_main_after_five OP_LDS = .ok OP_MOD ∧
    vm_display_debug_op vm_main_after_five OP_LDS 0 0 0
      = .ok "OP_LDS -> MOD: R0 = R0(0) % R0(0)\n" ∧
    vm_execute_steps program_main program_main_size 6 vm_init = some vm_main_before_halt ∧
    vm_main_before_halt.reg.get 0 = 0 ∧
    vm_main_before_halt.rx = 0 ∧
    vm_main_before_halt.ry = 1 ∧
    vm_main_before_halt.ry ≠ 0 := by
  refine ⟨by decide, by decide, by decide, by decide, by decide, by decide, by decide,
    by decide, by decide, by decide, by decide⟩

/-! ## The index registers -/

theorem store_rx (vm vm' : VirtualMachine) (i v : Int) (h : store vm i v = .ok vm') :
    vm'.rx = vm.rx := by
  unfold store at h
  cases hk : regIndex i with
  | none => rw [hk] at h; cases h
  | some k => rw [hk] at h; cases h; rfl

theorem assign_rx (vm vm' : VirtualMachine) (f : Int → Int → Except Fault Int)
    (op1 op2 result : Int) (h : assign vm f op1 op2 result = .ok vm') :
    vm'.rx = vm.rx := by
  unfold assign at h
  cases ha : load vm (Int.tmod op1 NUM_REGISTERS) with
  | error e => rw [ha] at h; cases h
  | ok a =>
    cases hb : load vm (Int.tmod op2 NUM_REGISTERS) with
    | error e => rw [ha, hb] at h; cases h
    | ok b =>
      cases hv : f a b with
      | error e => simp only [ha, hb, hv] at h; cases h
      | ok v =>
        simp only [ha, hb, hv] at h
        exact store_rx vm vm' _ v h

theorem break_rx (vm vm' : VirtualMachine) (r : Except Fault VirtualMachine) (st : Int)
    (hr : ∀ v, r = .ok v → v.rx = vm.rx)
    (h : (match r with
      | .error e => (.error e : Except Fault (Int × VirtualMachine))
      | .ok v => .ok (VMS_OK, v)) = .ok (st, vm')) :
    vm'.rx = vm.rx := by
  cases r with
  | error e => cases h
  | ok v =>
    cases h
    exact hr _ rfl

/-- No case of the switch of `vm_execute_op` writes the pointer `rx`. -/
theorem dispatch_rx (vm vm' : VirtualMachine) (real op1 op2 result st : Int)
    (h : dispatch vm real op1 op2 result = .ok (st, vm')) :
    vm'.rx = vm.rx := by
  unfold dispatch at h
  split_ifs at h with hadd hsub hmul hdiv hmod hlds
  · exact break_rx vm vm' _ st (fun v hv => assign_rx vm v _ op1 op2 result hv) h
  · exact break_rx vm vm' _ st (fun v hv => assign_rx vm v _ op1 op2 result hv) h
  · exact break_rx vm vm' _ st (fun v hv => assign_rx vm v _ op1 op2 result hv) h
  · cases hd : load vm (Int.tmod op2 NUM_REGISTERS) with
    | error e => rw [hd] at h; cases h
    | ok d =>
      rw [hd] at h
      simp only at h
      split_ifs at h with hz
      · exact break_rx vm vm' _ st (fun v hv => assign_rx vm v _ op1 op2 result hv) h
      · cases h
        rfl
  · cases hd : load vm (Int.tmod op2 NUM_REGISTERS) with
    | error e => rw [hd] at h; cases h
    | ok d =>
      rw [hd] at h
      simp only at h
      split_ifs at h with hz
      · exact break_rx vm vm' _ st (fun v hv => assign_rx vm v _ op1 op2 result hv) h
      · cases h
        rfl
  · exact break_rx vm vm' _ st
      (fun v hv => store_rx { vm with ry := Int.tmod op2 NUM_REGISTERS } v _ _ hv) h
  · cases h
    rfl

theorem vm_execute_op_rx (vm vm' : VirtualMachine) (opcode op1 op2 result st : Int)
    (h : vm_execute_op vm opcode op1 op2 result = .ok (st, vm')) :
    vm'.rx = vm.rx := by
  unfold vm_execute_op at h
  cases hreal : real_opcode vm opcode with
  | error e => rw [hreal] at h; cases h
  | ok real =>
    rw [hreal] at h
    exact dispatch_rx vm vm' real op1 op2 result st h

theorem vm_execute_body_rx (vm vm' : VirtualMachine) (program : List Int) (st : Int)
    (h : vm_execute_body vm program = .ok (st, vm')) :
    vm'.rx = vm.rx := by
  unfold vm_execute_body at h
  cases hf : fetch_instruction vm program with
  | error e => rw [hf] at h; cases h
  | ok ins =>
    obtain ⟨opcode, op1, op2, result⟩ := ins
    rw [hf] at h
    simp only at h
    cases hd : vm_display_debug_op vm opcode op1 op2 result with
    | error e => rw [hd] at h; cases h
    | ok s =>
      rw [hd] at h
      exact vm_execute_op_rx vm vm' opcode op1 op2 result st h

theorem vm_execute_loop_rx (program : List Int) (program_size : Int) :
    ∀ (fuel : Nat) (vm vm' : VirtualMachine) (st : Int),
      vm_execute_loop program program_size fuel vm = .ok (st, vm') → vm'.rx = vm.rx := by
  intro fuel
  induction fuel with
  | zero =>
    intro vm vm' st h
    cases h
  | succ fuel ih =>
    intro vm vm' st h
    rw [vm_execute_loop] at h
    split_ifs at h with hpc
    · cases hb : vm_execute_body vm program with
      | error e => rw [hb] at h; cases h
      | ok r =>
        obtain ⟨code, vm1⟩ := r
        rw [hb] at h
        simp only at h
        have h1 := vm_execute_body_rx vm vm1 program code hb
        split_ifs at h with hst
        · cases h
          exact h1
        · have h2 := ih (advance vm1) vm' st h
          rw [h2]
          exact h1
    · cases h
      rfl

/-- The machines of a run of `vm_execute` from `vm_init` are reachable. -/
theorem vm_execute_steps_reachable (program : List Int) (program_size : Int) :
    ∀ (n : Nat) (vm vmn : VirtualMachine), Reachable vm →
      vm_execute_steps program program_size n vm = some vmn → Reachable vmn := by
  intro n
  induction n with
  | zero =>
    intro vm vmn hr h
    simp only [vm_execute_steps, Option.some.injEq] at h
    rw [← h]
    exact hr
  | succ n ih =>
    intro vm vmn hr h
    rw [vm_execute_steps] at h
    split_ifs at h with hpc
    cases hb : vm_execute_body vm program with
    | error e => rw [hb] at h; cases h
    | ok r =>
      obtain ⟨code, vm1⟩ := r
      rw [hb] at h
      simp only at h
      split_ifs at h with hst
      refine ih (advance vm1) vmn (Reachable.step_pc vm1 ?_) h
      unfold vm_execute_body at hb
      cases hf : fetch_instruction vm program with
      | error e => rw [hf] at hb; cases hb
      | ok ins =>
        obtain ⟨opcode, op1, op2, result⟩ := ins
        rw [hf] at hb
        simp only at hb
        cases hd : vm_display_debug_op vm opcode op1 op2 result with
        | error e => rw [hd] at hb; cases hb
        | ok s =>
          rw [hd] at hb
          exact Reachable.step_op vm vm1 opcode op1 op2 result code hr hb

/-- C14: `rx` stays at slot 0.  In every machine that can be met from
`vm_init`, by calls of `vm_execute_op`, by the advance of the program counter
and by runs of `vm_execute` on any program, `rx` references register slot 0,
and a further call of `vm_execute_op` or `vm_execute` leaves it there. -/
theorem rx_stays_at_slot_zero (vm : VirtualMachine) (h : Reachable vm) :
    vm.rx = 0 ∧
    (∀ opcode op1 op2 result st vm',
      vm_execute_op vm opcode op1 op2 result = .ok (st, vm') → vm'.rx = 0) ∧
    (∀ program program_size st vm',
      vm_execute vm program program_size = .ok (st, vm') → vm'.rx = 0) := by
  have hrx : vm.rx = 0 := by
    induction h with
    | init => rfl
    | step_op vm vm' opcode op1 op2 result st _ hop ih =>
      rw [vm_execute_op_rx vm vm' opcode op1 op2 result st hop]
      exact ih
    | step_pc vm _ ih => exact ih
    | run vm vm' program program_size st _ hrun ih =>
      rw [vm_execute_loop_rx program program_size _ vm vm' st hrun]
      exact ih
  refine ⟨hrx, ?_, ?_⟩
  · intro opcode op1 op2 result st vm' hop
    rw [vm_execute_op_rx vm vm' opcode op1 op2 result st hop]
    exact hrx
  · intro program program_size st vm' hrun
    rw [vm_execute_loop_rx program program_size _ vm vm' st hrun]
    exact hrx

/-- C14, at the run of `main`: the machine that the seventh instruction of
`program_main` finds is reachable, and `rx` is at slot 0 there and after the
instruction. -/
theorem rx_stays_at_slot_zero_witness :
    Reachable vm_main_before_halt ∧
    vm_main_before_halt.rx = 0 ∧
    (∀ opcode op1 op2 result st vm',
      vm_execute_op vm_main_before_halt opcode op1 op2 result = .ok (st, vm') → vm'.rx = 0) ∧
    (∀ program program_size st vm',
      vm_execute vm_main_before_halt program program_size = .ok (st, vm') → vm'.rx = 0) :=
  ⟨vm_execute_steps_reachable program_main program_main_size 6 vm_init vm_main_before_halt
      Reachable.init (by decide),
    rx_stays_at_slot_zero vm_main_before_halt
      (vm_execute_steps_reachable program_main program_main_size 6 vm_init vm_main_before_halt
        Reachable.init (by decide))⟩

/-- C15: `ry` does not always reference a register slot.  From `vm_init` the
single instruction `LDS(0, -1, 0)` is executed as a load and returns
`VMS_OK`; the index `-1 % 8` of the C program is `-1` and `ry` is left at the
offset `-1`, outside `[0, 8)`.  The machine is reachable, `vm_execute` returns
it with `VMS_OK`, and the next read of `*(vm->ry)` is outside the register
file. -/
theorem ry_leaves_register_file :
    real_opcode vm_init OP_LDS = .ok OP_LDS ∧
    vm_execute_op vm_init OP_LDS 0 (-1) 0 = .ok (VMS_OK, { vm_negative_ry with pc := 0 }) ∧
    vm_execute_steps program_negative_ry 4 1 vm_init = some vm_negative_ry ∧
    vm_execute vm_init program_negative_ry 4 = .ok (VMS_OK, vm_negative_ry) ∧
    Reachable vm_negative_ry ∧
    vm_negative_ry.rx = 0 ∧
    vm_negative_ry.ry = -1 ∧
    ¬ (0 ≤ vm_negative_ry.ry ∧ vm_negative_ry.ry < NUM_REGISTERS) ∧
    load vm_negative_ry vm_negative_ry.ry = .error .regOutOfBounds ∧
    real_opcode vm_negative_ry OP_HALT = .error .regOutOfBounds := by
  refine ⟨by decide, by decide, by decide, by decide, ?_, by decide, by decide, by decide,
    by decide, by decide⟩
  exact Reachable.run vm_init vm_negative_ry program_negative_ry 4 VMS_OK Reachable.init
    (by decide)

/-! ## Runs that end with `VMS_OK` -/

/-- C11: a program without `HALT` and without a division by zero whose run
does not return `VMS_OK`.  The 12 words of `program_div_overflow` are run
from `vm_init`, program counter 0: the first two instructions are executed as
`LDS`, the third as `DIV` with the divisor `reg[1] = -1`; the division
`INT32_MIN / -1` has no defined result in C and `vm_execute` returns no
status.  The single instruction `ADD(-1, 0, 0)` of `program_negative_field`,
executed as `ADD`, reads outside the register file. -/
theorem vm_execute_not_ok_without_halt :
    program_div_overflow.length = 12 ∧
    vm_init.pc = 0 ∧
    fetch_instruction vm_init program_div_overflow = .ok (OP_LDS, INT32_MIN, 2, 0) ∧
    real_opcode vm_init OP_LDS = .ok OP_LDS ∧
    (∃ vm1, vm_execute_steps program_div_overflow 12 1 vm_init = some vm1 ∧
      fetch_instruction vm1 program_div_overflow = .ok (OP_LDS, -1, 2, 1) ∧
      real_opcode vm1 OP_LDS = .ok OP_LDS) ∧
    vm_execute_steps program_div_overflow 12 2 vm_init = some vm_min_neg_one ∧
    fetch_instruction vm_min_neg_one program_div_overflow = .ok (OP_DIV, 0, 1, 3) ∧
    real_opcode vm_min_neg_one OP_DIV = .ok OP_DIV ∧
    load vm_min_neg_one (Int.tmod 1 NUM_REGISTERS) = .ok (-1) ∧
    vm_execute vm_init program_div_overflow 12 = .error .divOverflow ∧
    (∀ vm', vm_execute vm_init program_div_overflow 12 ≠ .ok (VMS_OK, vm')) ∧
    program_negative_field.length = 4 ∧
    fetch_instruction vm_init program_negative_field = .ok (OP_ADD, -1, 0, 0) ∧
    real_opcode vm_init OP_ADD = .ok OP_ADD ∧
    vm_execute vm_init program_negative_field 4 = .error .regOutOfBounds := by
  refine ⟨by decide, by decide, by decide, by decide, ⟨_, rfl, by decide, by decide⟩,
    by decide, by decide, by decide, by decide, by decide, ?_, by decide, by decide, by decide,
    by decide⟩
  intro vm' h
  have e : vm_execute vm_init program_div_overflow 12 = .error .divOverflow := by decide
  rw [e] at h
  cases h

/-! ## The converse of the no-op rule -/

/-- The remainder of C by 7 in terms of the Euclidean one. -/
theorem tmod_seven (a : Int) :
    Int.tmod a 7 = if 0 ≤ a then a % 7 else -((-a) % 7) := by
  split_ifs with h
  · exact Int.tmod_eq_emod h (by decide)
  · have h1 := neg_tmod_eq (-a) 7
    rw [neg_neg] at h1
    rw [h1, Int.tmod_eq_emod (by omega) (by decide)]

theorem wrap32_range (z : Int) : INT32_MIN ≤ wrap32 z ∧ wrap32 z ≤ INT32_MAX := by
  unfold wrap32 INT32_MIN INT32_MAX
  omega

/-- A sum that is at most 6 outside the `int32_t` range wraps by one period. -/
theorem wrap32_cases (u : Int) (hlo : INT32_MIN - 6 ≤ u) (hhi : u ≤ INT32_MAX + 6) :
    (INT32_MIN ≤ u ∧ u ≤ INT32_MAX ∧ wrap32 u = u) ∨
    (INT32_MAX < u ∧ wrap32 u = u - 4294967296) ∨
    (u < INT32_MIN ∧ wrap32 u = u + 4294967296) := by
  unfold INT32_MIN INT32_MAX at *
  unfold wrap32
  omega

theorem tmod_seven_range (a : Int) :
    -6 ≤ Int.tmod a 7 ∧ Int.tmod a 7 ≤ 6 ∧ (0 ≤ a → 0 ≤ Int.tmod a 7) ∧
      (a ≤ 0 → Int.tmod a 7 ≤ 0) := by
  rw [tmod_seven]
  split_ifs with h
  · refine ⟨by omega, by omega, fun _ => by omega, fun h0 => by omega⟩
  · refine ⟨by omega, by omega, fun h0 => by omega, fun _ => by omega⟩

/-- C19: the converse of the no-op rule.  When the effective opcode that
`vm_execute_op` computes, with 32-bit wraparound of the product and of the
sum, is `opcode % 7` as the code computes it, the wrapped product of the
registers that `rx` and `ry` reference is a multiple of 7. -/
theorem scrambling_converse (vm : VirtualMachine) (opcode x y : Int)
    (hx : load vm vm.rx = .ok x) (hy : load vm vm.ry = .ok y)
    (h : real_opcode vm opcode = .ok (scrambled_opcode opcode)) :
    NUM_OPCODES ∣ wrap32 (x * y) := by
  unfold real_opcode at h
  rw [hx, hy] at h
  simp only [Except.ok.injEq] at h
  unfold scrambled_opcode NUM_OPCODES at h
  unfold NUM_OPCODES
  obtain ⟨hp1, hp2⟩ := wrap32_range (x * y)
  obtain ⟨hs1, hs2, _, _⟩ := tmod_seven_range opcode
  generalize wrap32 (x * y) = p at h hp1 hp2 ⊢
  generalize Int.tmod opcode 7 = s at h hs1 hs2
  have hw := wrap32_cases (s + p) (by omega) (by omega)
  obtain ⟨_, _, ht1, ht2⟩ := tmod_seven_range (wrap32 (s + p))
  have hdef := Int.tmod_def (wrap32 (s + p)) 7
  rw [h] at ht1 ht2 hdef
  generalize Int.tdiv (wrap32 (s + p)) 7 = q at hdef
  unfold INT32_MIN INT32_MAX at *
  rcases hw with ⟨_, _, e⟩ | ⟨hgt, e⟩ | ⟨hlt, e⟩
  · rw [e] at hdef
    exact ⟨q, by omega⟩
  · rw [e] at ht1 ht2
    omega
  · rw [e] at ht1 ht2
    omega

/-- C19, at a concrete machine: at `vm_seven` the encoded `SUB` is executed
as `SUB`, and the product `7 * 3` is a multiple of 7. -/
theorem scrambling_converse_witness :
    real_opcode vm_seven OP_SUB = .ok (scrambled_opcode OP_SUB) ∧
    NUM_OPCODES ∣ wrap32 (7 * 3) :=
  ⟨by decide, scrambling_converse vm_seven OP_SUB 7 3 (by decide) (by decide) (by decide)⟩

/-! ## The program counter -/

theorem fetch_ok (program : List Int) (i : Int) (h0 : 0 ≤ i) (h1 : i < program.length) :
    ∃ w, fetch program i = .ok w := by
  unfold fetch
  rw [if_pos h0]
  have hlt : i.toNat < program.length := by omega
  rw [List.getElem?_eq_getElem hlt]
  exact ⟨_, rfl⟩

theorem fetch_instruction_ok (vm : VirtualMachine) (program : List Int)
    (h0 : 0 ≤ vm.pc) (h1 : vm.pc + 3 < program.length)
    (hmax : (program.length : Int) ≤ INT32_MAX) :
    ∃ opcode op1 op2 result,
      fetch_instruction vm program = .ok (opcode, op1, op2, result) := by
  unfold INT32_MAX at hmax
  have w1 : wrap32 (vm.pc + 1) = vm.pc + 1 := by unfold wrap32; omega
  have w2 : wrap32 (vm.pc + 2) = vm.pc + 2 := by unfold wrap32; omega
  have w3 : wrap32 (vm.pc + 3) = vm.pc + 3 := by unfold wrap32; omega
  obtain ⟨a, ha⟩ := fetch_ok program vm.pc h0 (by omega)
  obtain ⟨b, hb⟩ := fetch_ok program (vm.pc + 1) (by omega) (by omega)
  obtain ⟨c, hc⟩ := fetch_ok program (vm.pc + 2) (by omega) (by omega)
  obtain ⟨d, hd⟩ := fetch_ok program (vm.pc + 3) (by omega) (by omega)
  refine ⟨a, b, c, d, ?_⟩
  unfold fetch_instruction
  rw [ha, w1, hb, w2, hc, w3, hd]

/-- With a `program_size` that is a multiple of 4, the program counter of a
run that starts at a multiple of 4 advances by 4 without wrapping. -/
theorem vm_execute_steps_aligned (program : List Int) (program_size : Int)
    (hsize4 : program_size % 4 = 0) (hmax : program_size ≤ INT32_MAX) :
    ∀ (n : Nat) (vm vmn : VirtualMachine), 0 ≤ vm.pc → vm.pc % 4 = 0 →
      vm_execute_steps program program_size n vm = some vmn →
      vmn.pc = vm.pc + 4 * n ∧ (vm.pc ≤ program_size → vmn.pc ≤ program_size) := by
  intro n
  induction n with
  | zero =>
    intro vm vmn _ _ h
    simp only [vm_execute_steps, Option.some.injEq] at h
    subst h
    exact ⟨by simp, fun h => h⟩
  | succ n ih =>
    intro vm vmn h0 h4 h
    rw [vm_execute_steps] at h
    split_ifs at h with hpc
    cases hb : vm_execute_body vm program with
    | error e => rw [hb] at h; cases h
    | ok r =>
      obtain ⟨st, vm1⟩ := r
      rw [hb] at h
      simp only at h
      split_ifs at h with hst
      obtain ⟨_, h1, _⟩ := vm_execute_body_result vm vm1 program st hb
      have hadv : (advance vm1).pc = vm.pc + 4 := by
        show wrap32 (vm1.pc + PC_OFFSET) = _
        rw [h1]
        unfold INT32_MAX at hmax
        unfold wrap32 PC_OFFSET
        omega
      obtain ⟨ha, hb'⟩ := ih (advance vm1) vmn (by omega) (by omega) h
      rw [hadv] at ha hb'
      refine ⟨by push_cast; omega, fun _ => hb' (by omega)⟩

/-- The machine that the loop of `vm_execute` leaves is one of the machines
of `vm_execute_steps`: the one at which the loop test fails, for the status
`VMS_OK`, or the one at which an instruction returns another status. -/
theorem vm_execute_loop_result (program : List Int) (program_size : Int) :
    ∀ (fuel : Nat) (vm vm' : VirtualMachine) (st : Int),
      vm_execute_loop program program_size fuel vm = .ok (st, vm') →
      ∃ n, vm_execute_steps program program_size n vm = some vm' ∧
        (st = VMS_OK → ¬ vm'.pc < program_size) ∧
        (st ≠ VMS_OK → vm'.pc < program_size ∧
          vm_execute_body vm' program = .ok (st, vm')) := by
  intro fuel
  induction fuel with
  | zero =>
    intro vm vm' st h
    cases h
  | succ fuel ih =>
    intro vm vm' st h
    rw [vm_execute_loop] at h
    split_ifs at h with hpc
    · cases hb : vm_execute_body vm program with
      | error e => rw [hb] at h; cases h
      | ok r =>
        obtain ⟨code, vm1⟩ := r
        rw [hb] at h
        simp only at h
        split_ifs at h with hst
        · cases h
          obtain ⟨_, _, hres⟩ := vm_execute_body_result vm vm' program st hb
          have hsame : vm' = vm := by
            rcases hres with h0 | h0
            · exact absurd h0 hst
            · exact h0.2
          subst hsame
          exact ⟨0, rfl, fun h0 => absurd h0 hst, fun _ => ⟨hpc, hb⟩⟩
        · obtain ⟨n, hn, hrest⟩ := ih (advance vm1) vm' st h
          refine ⟨n + 1, ?_, hrest⟩
          rw [vm_execute_steps, if_pos hpc, hb]
          simp only
          rw [if_neg hst]
          exact hn
    · cases h
      exact ⟨0, rfl, fun _ => hpc, fun h0 => absurd rfl h0⟩

/-- C16: the program counter of a run over a program whose length is a
multiple of 4.  `vm_execute` is run from program counter 0 with the length of
the program as `program_size` (an `int`).  In the machine `vmn` that `n`
instructions executed with `VMS_OK` lead to, the program counter is `4 n`,
non-negative and a multiple of 4; when the loop goes on from there, the four
words at `pc`, ..., `pc + 3` are inside the program, and an instruction that
returns `VMS_OK` is followed by the program counter `pc + 4`.  The machine
that `vm_execute` leaves has such a program counter as well. -/
theorem program_counter_aligned (program : List Int) (vm vmn : VirtualMachine) (n : Nat)
    (hlen4 : (program.length : Int) % 4 = 0)
    (hmax : (program.length : Int) ≤ INT32_MAX)
    (hpc : vm.pc = 0)
    (hrun : vm_execute_steps program program.length n vm = some vmn) :
    vmn.pc = 4 * n ∧ 0 ≤ vmn.pc ∧ vmn.pc % 4 = 0 ∧ vmn.pc ≤ program.length ∧
    (vmn.pc < program.length →
      vmn.pc + 3 < program.length ∧
      (∃ opcode op1 op2 result,
        fetch_instruction vmn program = .ok (opcode, op1, op2, result)) ∧
      (∀ vm', vm_execute_body vmn program = .ok (VMS_OK, vm') →
        (advance vm').pc = vmn.pc + 4)) ∧
    (∀ st vm', vm_execute vm program program.length = .ok (st, vm') →
      0 ≤ vm'.pc ∧ vm'.pc % 4 = 0 ∧ vm'.pc ≤ program.length) := by
  have hal := vm_execute_steps_aligned program program.length hlen4 hmax
  obtain ⟨h1, h2⟩ := hal n vm vmn (by omega) (by omega) hrun
  rw [hpc] at h1 h2
  have hle := h2 (by omega)
  refine ⟨by omega, by omega, by omega, hle, ?_, ?_⟩
  · intro hlt
    have h3 : vmn.pc + 3 < program.length := by omega
    refine ⟨h3, fetch_instruction_ok vmn program (by omega) h3 hmax, ?_⟩
    intro vm' hb
    obtain ⟨_, hpc', _⟩ := vm_execute_body_result vmn vm' program VMS_OK hb
    show wrap32 (vm'.pc + PC_OFFSET) = _
    rw [hpc']
    unfold INT32_MAX at hmax
    unfold wrap32 PC_OFFSET
    omega
  · intro st vm' hexec
    obtain ⟨m, hm, _⟩ := vm_execute_loop_result program program.length _ vm vm' st hexec
    obtain ⟨h4, h5⟩ := hal m vm vm' (by omega) (by omega) hm
    rw [hpc] at h4 h5
    have := h5 (by omega)
    refine ⟨by omega, by omega, this⟩

/-- C16, at a concrete run: after the load of `program_load_halt`, a program
of 8 words, the program counter is 4. -/
theorem program_counter_aligned_witness :
    vm_load_halt.pc = 4 * (1 : Nat) ∧ 0 ≤ vm_load_halt.pc ∧ vm_load_halt.pc % 4 = 0 ∧
    vm_load_halt.pc ≤ program_load_halt.length ∧
    (vm_load_halt.pc < program_load_halt.length →
      vm_load_halt.pc + 3 < program_load_halt.length ∧
      (∃ opcode op1 op2 result,
        fetch_instruction vm_load_halt program_load_halt = .ok (opcode, op1, op2, result)) ∧
      (∀ vm', vm_execute_body vm_load_halt program_load_halt = .ok (VMS_OK, vm') →
        (advance vm').pc = vm_load_halt.pc + 4)) ∧
    (∀ st vm', vm_execute vm_init program_load_halt program_load_halt.length = .ok (st, vm') →
      0 ≤ vm'.pc ∧ vm'.pc % 4 = 0 ∧ vm'.pc ≤ program_load_halt.length) :=
  program_counter_aligned program_load_halt vm_init vm_load_halt 1
    (by decide) (by decide) (by decide) (by decide)

/-! ## Termination -/

theorem load_ne_outOfFuel (vm : VirtualMachine) (i : Int) :
    load vm i ≠ .error .outOfFuel := by
  unfold load
  cases regIndex i <;> simp

theorem store_ne_outOfFuel (vm : VirtualMachine) (i v : Int) :
    store vm i v ≠ .error .outOfFuel := by
  unfold store
  cases regIndex i <;> simp

theorem real_opcode_ne_outOfFuel (vm : VirtualMachine) (opcode : Int) :
    real_opcode vm opcode ≠ .error .outOfFuel := by
  unfold real_opcode
  have hx := load_ne_outOfFuel vm vm.rx
  have hy := load_ne_outOfFuel vm vm.ry
  cases h1 : load vm vm.rx with
  | error e => rw [h1] at hx; simpa using hx
  | ok x =>
    cases h2 : load vm vm.ry with
    | error e => rw [h2] at hy; simpa using hy
    | ok y => simp

theorem assign_ne_outOfFuel (vm : VirtualMachine) (f : Int → Int → Except Fault Int)
    (op1 op2 result : Int) (hf : ∀ a b, f a b ≠ .error .outOfFuel) :
    assign vm f op1 op2 result ≠ .error .outOfFuel := by
  unfold assign
  have h1 := load_ne_outOfFuel vm (Int.tmod op1 NUM_REGISTERS)
  have h2 := load_ne_outOfFuel vm (Int.tmod op2 NUM_REGISTERS)
  cases ha : load vm (Int.tmod op1 NUM_REGISTERS) with
  | error e => rw [ha] at h1; simpa using h1
  | ok a =>
    cases hb : load vm (Int.tmod op2 NUM_REGISTERS) with
    | error e => rw [hb] at h2; simpa using h2
    | ok b =>
      have h3 := hf a b
      cases hv : f a b with
      | error e =>
        rw [hv] at h3
        simp only [hv]
        simpa using h3
      | ok v =>
        simp only [hv]
        exact store_ne_outOfFuel vm _ v

theorem break_ne_outOfFuel (r : Except Fault VirtualMachine) (hr : r ≠ .error .outOfFuel) :
    (match r with
      | .error e => (.error e : Except Fault (Int × VirtualMachine))
      | .ok v => .ok (VMS_OK, v)) ≠ .error .outOfFuel := by
  cases r with
  | error e => simpa using hr
  | ok v => simp

theorem c_div_ne_outOfFuel (a b : Int) : c_div a b ≠ .error .outOfFuel := by
  unfold c_div
  split_ifs <;> simp

theorem c_mod_ne_outOfFuel (a b : Int) : c_mod a b ≠ .error .outOfFuel := by
  unfold c_mod
  split_ifs <;> simp

theorem dispatch_ne_outOfFuel (vm : VirtualMachine) (real op1 op2 result : Int) :
    dispatch vm real op1 op2 result ≠ .error .outOfFuel := by
  unfold dispatch
  split_ifs with hadd hsub hmul hdiv hmod hlds
  · exact break_ne_outOfFuel _ (assign_ne_outOfFuel vm _ op1 op2 result (fun _ _ => by simp))
  · exact break_ne_outOfFuel _ (assign_ne_outOfFuel vm _ op1 op2 result (fun _ _ => by simp))
  · exact break_ne_outOfFuel _ (assign_ne_outOfFuel vm _ op1 op2 result (fun _ _ => by simp))
  · have h2 := load_ne_outOfFuel vm (Int.tmod op2 NUM_REGISTERS)
    cases hd : load vm (Int.tmod op2 NUM_REGISTERS) with
    | error e => rw [hd] at h2; simpa using h2
    | ok d =>
      simp only
      split_ifs with hz
      · exact break_ne_outOfFuel _ (assign_ne_outOfFuel vm _ op1 op2 result c_div_ne_outOfFuel)
      · simp
  · have h2 := load_ne_outOfFuel vm (Int.tmod op2 NUM_REGISTERS)
    cases hd : load vm (Int.tmod op2 NUM_REGISTERS) with
    | error e => rw [hd] at h2; simpa using h2
    | ok d =>
      simp only
      split_ifs with hz
      · exact break_ne_outOfFuel _ (assign_ne_outOfFuel vm _ op1 op2 result c_mod_ne_outOfFuel)
      · simp
  · exact break_ne_outOfFuel _ (store_ne_outOfFuel _ _ _)
  · simp

theorem vm_execute_op_ne_outOfFuel (vm : VirtualMachine) (opcode op1 op2 result : Int) :
    vm_execute_op vm opcode op1 op2 result ≠ .error .outOfFuel := by
  unfold vm_execute_op
  have h := real_opcode_ne_outOfFuel vm opcode
  cases hreal : real_opcode vm opcode with
  | error e => rw [hreal] at h; simpa using h
  | ok real => exact dispatch_ne_outOfFuel vm real op1 op2 result

theorem op_name_ne_outOfFuel (i : Int) : op_name i ≠ .error .outOfFuel := by
  unfold op_name
  split_ifs
  · cases op_names[i.toNat]? <;> simp
  · simp

theorem vm_display_debug_op_ne_outOfFuel (vm : VirtualMachine)
    (opcode op1 op2 result : Int) :
    vm_display_debug_op vm opcode op1 op2 result ≠ .error .outOfFuel := by
  unfold vm_display_debug_op
  have h := real_opcode_ne_outOfFuel vm opcode
  cases hreal : real_opcode vm opcode with
  | error e => rw [hreal] at h; simpa using h
  | ok real =>
    simp only
    split_ifs
    · have hn := op_name_ne_outOfFuel (Int.tmod (scrambled_opcode opcode) NUM_OPCODES)
      cases hname : op_name (Int.tmod (scrambled_opcode opcode) NUM_OPCODES) with
      | error e => rw [hname] at hn; simpa using hn
      | ok name => simp
    · simp

theorem fetch_ne_outOfFuel (program : List Int) (i : Int) :
    fetch program i ≠ .error .outOfFuel := by
  unfold fetch
  split_ifs
  · cases program[i.toNat]? <;> simp
  · simp

theorem fetch_instruction_ne_outOfFuel (vm : VirtualMachine) (program : List Int) :
    fetch_instruction vm program ≠ .error .outOfFuel := by
  unfold fetch_instruction
  have h0 := fetch_ne_outOfFuel program vm.pc
  have h1 := fetch_ne_outOfFuel program (wrap32 (vm.pc + 1))
  have h2 := fetch_ne_outOfFuel program (wrap32 (vm.pc + 2))
  have h3 := fetch_ne_outOfFuel program (wrap32 (vm.pc + 3))
  cases e0 : fetch program vm.pc with
  | error e => rw [e0] at h0; simpa using h0
  | ok a =>
    cases e1 : fetch program (wrap32 (vm.pc + 1)) with
    | error e => rw [e1] at h1; simpa using h1
    | ok b =>
      cases e2 : fetch program (wrap32 (vm.pc + 2)) with
      | error e => rw [e2] at h2; simpa using h2
      | ok c =>
        cases e3 : fetch program (wrap32 (vm.pc + 3)) with
        | error e => rw [e3] at h3; simpa using h3
        | ok d => simp

/-- One iteration of the loop never runs into the bound on the iterations. -/
theorem vm_execute_body_ne_outOfFuel (vm : VirtualMachine) (program : List Int) :
    vm_execute_body vm program ≠ .error .outOfFuel := by
  unfold vm_execute_body
  have hf := fetch_instruction_ne_outOfFuel vm program
  cases e : fetch_instruction vm program with
  | error f => rw [e] at hf; simpa using hf
  | ok ins =>
    obtain ⟨opcode, op1, op2, result⟩ := ins
    simp only
    have hd := vm_display_debug_op_ne_outOfFuel vm opcode op1 op2 result
    cases ed : vm_display_debug_op vm opcode op1 op2 result with
    | error f => rw [ed] at hd; simpa using hd
    | ok s => exact vm_execute_op_ne_outOfFuel vm opcode op1 op2 result

/-- The fuel that a run from `vm` needs: one iteration when the program
counter is negative, `program_size - pc` iterations and the exit test
otherwise. -/
theorem vm_execute_loop_ne_outOfFuel (program : List Int) (program_size : Int)
    (hsize : program_size ≤ INT32_MAX) :
    ∀ (fuel : Nat) (vm : VirtualMachine), 1 ≤ fuel →
      (0 ≤ vm.pc → (program_size - vm.pc).toNat + 1 ≤ fuel) →
      vm_execute_loop program program_size fuel vm ≠ .error .outOfFuel := by
  intro fuel
  induction fuel with
  | zero =>
    intro vm h1 _
    omega
  | succ fuel ih =>
    intro vm _ hfuel
    rw [vm_execute_loop]
    split_ifs with hpc
    · have hbody := vm_execute_body_ne_outOfFuel vm program
      cases hb : vm_execute_body vm program with
      | error e => rw [hb] at hbody; simpa using hbody
      | ok r =>
        obtain ⟨code, vm1⟩ := r
        simp only
        split_ifs with hst
        · simp
        · obtain ⟨h0, h1, _⟩ := vm_execute_body_result vm vm1 program code hb
          have hf := hfuel h0
          have hadv : (advance vm1).pc = wrap32 (vm.pc + 4) := by
            show wrap32 (vm1.pc + PC_OFFSET) = _
            rw [h1]
          apply ih (advance vm1) (by omega)
          rw [hadv]
          intro hnn
          unfold INT32_MAX at hsize
          unfold wrap32 at hnn ⊢
          omega
    · simp

/-- More fuel does not change the result of a run that was not cut. -/
theorem vm_execute_loop_more_fuel (program : List Int) (program_size : Int) :
    ∀ (fuel : Nat) (vm : VirtualMachine),
      vm_execute_loop program program_size fuel vm ≠ .error .outOfFuel →
      ∀ k, vm_execute_loop program program_size (fuel + k) vm
        = vm_execute_loop program program_size fuel vm := by
  intro fuel
  induction fuel with
  | zero =>
    intro vm h
    exact absurd rfl h
  | succ fuel ih =>
    intro vm h k
    have e : fuel + 1 + k = (fuel + k) + 1 := by omega
    rw [e, vm_execute_loop, vm_execute_loop]
    rw [vm_execute_loop] at h
    split_ifs with hpc
    · rw [if_pos hpc] at h
      cases hb : vm_execute_body vm program with
      | error e => rfl
      | ok r =>
        obtain ⟨code, vm1⟩ := r
        rw [hb] at h
        simp only at h ⊢
        split_ifs with hst
        · rfl
        · rw [if_neg hst] at h
          exact ih (advance vm1) h k
    · rfl

theorem executed_instructions_negative_pc (program : List Int) (program_size : Int)
    (fuel : Nat) (vm : VirtualMachine) (hneg : vm.pc < 0) :
    executed_instructions program program_size fuel vm = 0 := by
  cases fuel with
  | zero => rfl
  | succ fuel =>
    rw [executed_instructions]
    split_ifs with hpc
    · have hf : fetch_instruction vm program = .error .fetchOutOfBounds := by
        unfold fetch_instruction fetch
        rw [if_neg (by omega)]
      rw [hf]
    · rfl

/-- The loop calls `vm_execute_op` at most `ceil((program_size - pc) / 4)`
times, whatever the bound on its iterations. -/
theorem executed_instructions_le (program : List Int) (program_size : Int)
    (hsize : program_size ≤ INT32_MAX) :
    ∀ (fuel : Nat) (vm : VirtualMachine),
      (executed_instructions program program_size fuel vm : Int)
        ≤ ((program_size - vm.pc + 3) / 4).toNat := by
  intro fuel
  induction fuel with
  | zero =>
    intro vm
    simp [executed_instructions]
  | succ fuel ih =>
    intro vm
    rw [executed_instructions]
    split_ifs with hpc
    · have hone : (1 : Int) ≤ ((program_size - vm.pc + 3) / 4).toNat := by omega
      cases hf : fetch_instruction vm program with
      | error e => simp only; omega
      | ok ins =>
        obtain ⟨opcode, op1, op2, result⟩ := ins
        simp only
        cases hd : vm_display_debug_op vm opcode op1 op2 result with
        | error e => simp only; omega
        | ok s =>
          simp only
          cases hop : vm_execute_op vm opcode op1 op2 result with
          | error e => simp only; exact_mod_cast hone
          | ok r =>
            obtain ⟨code, vm1⟩ := r
            simp only
            split_ifs with hst
            · exact_mod_cast hone
            · have h0 : 0 ≤ vm.pc := by
                unfold fetch_instruction at hf
                cases e0 : fetch program vm.pc with
                | error e => rw [e0] at hf; cases hf
                | ok w => exact fetch_nonneg program vm.pc w e0
              obtain ⟨h1, _⟩ := vm_execute_op_result vm vm1 opcode op1 op2 result code hop
              have hadv : (advance vm1).pc = wrap32 (vm.pc + 4) := by
                show wrap32 (vm1.pc + PC_OFFSET) = _
                rw [h1]
              rcases le_or_lt (vm.pc + 4) INT32_MAX with hle | hgt
              · have hw : wrap32 (vm.pc + 4) = vm.pc + 4 := by
                  unfold INT32_MAX at hle
                  unfold wrap32
                  omega
                have := ih (advance vm1)
                rw [hadv, hw] at this
                push_cast
                omega
              · have hneg : (advance vm1).pc < 0 := by
                  rw [hadv]
                  unfold INT32_MAX at hgt hsize
                  unfold wrap32
                  omega
                rw [executed_instructions_negative_pc program program_size fuel _ hneg]
                exact_mod_cast hone
    · simp

/-- C20: `vm_execute` terminates.  For a `program_size` that is an `int` and
every starting machine, the loop of `vm_execute` is never cut by the bound
`program_size - pc + 1` on its iterations, and a larger bound gives the same
result; a status that it returns is `VMS_OK`, `VMS_HALTED` or
`VMS_DIV_0_ERROR`.  Whatever the bound, the loop calls `vm_execute_op` at
most `ceil((program_size - pc) / 4)` times; when `program_size ≤ pc` it calls
it not at all and `vm_execute` returns `VMS_OK` with the machine untouched. -/
theorem vm_execute_terminates (vm : VirtualMachine) (program : List Int)
    (program_size : Int) (hsize : program_size ≤ INT32_MAX) :
    vm_execute vm program program_size ≠ .error .outOfFuel ∧
    (∀ k, vm_execute_loop program program_size ((program_size - vm.pc).toNat + 1 + k) vm
      = vm_execute vm program program_size) ∧
    (∀ st vm', vm_execute vm program program_size = .ok (st, vm') →
      st = VMS_OK ∨ st = VMS_HALTED ∨ st = VMS_DIV_0_ERROR) ∧
    (∀ fuel, (executed_instructions program program_size fuel vm : Int)
      ≤ ((program_size - vm.pc + 3) / 4).toNat) ∧
    (program_size ≤ vm.pc →
      vm_execute vm program program_size = .ok (VMS_OK, vm) ∧
      ∀ fuel, executed_instructions program program_size fuel vm = 0) := by
  have hne : vm_execute vm program program_size ≠ .error .outOfFuel :=
    vm_execute_loop_ne_outOfFuel program program_size hsize _ vm (by omega) (fun _ => le_refl _)
  refine ⟨hne, ?_, ?_, ?_, ?_⟩
  · intro k
    exact vm_execute_loop_more_fuel program program_size _ vm hne k
  · intro st vm' hexec
    obtain ⟨n, _, _, hbad⟩ := vm_execute_loop_result program program_size _ vm vm' st hexec
    by_cases hst : st = VMS_OK
    · exact Or.inl hst
    · obtain ⟨_, _, hres⟩ := vm_execute_body_result vm' vm' program st (hbad hst).2
      rcases hres with h | h
      · exact Or.inl h
      · exact Or.inr h.1
  · intro fuel
    exact executed_instructions_le program program_size hsize fuel vm
  · intro hge
    refine ⟨?_, ?_⟩
    · unfold vm_execute
      rw [vm_execute_loop, if_neg (by omega)]
    · intro fuel
      cases fuel with
      | zero => rfl
      | succ fuel =>
        rw [executed_instructions, if_neg (by omega)]

/-- C20, at the run of `main`: from program counter 0 with `program_size`
112 the loop is not cut and calls `vm_execute_op` 7 times, within the bound
`ceil(112 / 4) = 28`. -/
theorem vm_execute_terminates_witness :
    executed_instructions program_main program_main_size 100 vm_init = 7 ∧
    ((program_main_size - vm_init.pc + 3) / 4).toNat = 28 ∧
    vm_execute vm_init program_main program_main_size ≠ .error .outOfFuel ∧
    (∀ k, vm_execute_loop program_main program_main_size
        ((program_main_size - vm_init.pc).toNat + 1 + k) vm_init
      = vm_execute vm_init program_main program_main_size) ∧
    (∀ st vm', vm_execute vm_init program_main program_main_size = .ok (st, vm') →
      st = VMS_OK ∨ st = VMS_HALTED ∨ st = VMS_DIV_0_ERROR) ∧
    (∀ fuel, (executed_instructions program_main program_main_size fuel vm_init : Int)
      ≤ ((program_main_size - vm_init.pc + 3) / 4).toNat) ∧
    (program_main_size ≤ vm_init.pc →
      vm_execute vm_init program_main program_main_size = .ok (VMS_OK, vm_init) ∧
      ∀ fuel, executed_instructions program_main program_main_size fuel vm_init = 0) :=
  ⟨by decide, by decide,
    vm_execute_terminates vm_init program_main program_main_size (by decide)⟩

/-! ## The trace -/

theorem name_then_tail (lit m t rest : String) (c : Char) (hlit : lit = m ++ t)
    (hc : t.data.head? = some c) :
    ∃ tail, lit ++ rest = m ++ tail ∧ tail.data.head? = some c := by
  refine ⟨t ++ rest, by rw [hlit, String.append_assoc], ?_⟩
  rw [String.data_append]
  cases ht : t.data with
  | nil => rw [ht] at hc; cases hc
  | cons a l => rw [ht] at hc; exact hc

/-- The text of the switch of `vm_display_debug_op` begins with the mnemonic
of the case that the switch of `vm_execute_op` takes, followed by `:` or
`!`. -/
theorem display_switch_name (real op1 op2 result : Int) :
    ∃ tail, display_switch real op1 op2 result = dispatch_name real ++ tail ∧
      (tail.data.head? = some ':' ∨ tail.data.head? = some '!') := by
  unfold display_switch dispatch_name
  split_ifs
  · simp only [String.append_assoc]
    obtain ⟨tail, h1, h2⟩ := name_then_tail "ADD: R" "ADD" ": R"
      (toString result ++ (" = " ++ (show_operand op1 ++ (" + " ++ (show_operand op2 ++ "\n")))))
      ':' rfl rfl
    exact ⟨tail, h1, Or.inl h2⟩
  · simp only [String.append_assoc]
    obtain ⟨tail, h1, h2⟩ := name_then_tail "SUB: R" "SUB" ": R"
      (toString result ++ (" = " ++ (show_operand op1 ++ (" - " ++ (show_operand op2 ++ "\n")))))
      ':' rfl rfl
    exact ⟨tail, h1, Or.inl h2⟩
  · simp only [String.append_assoc]
    obtain ⟨tail, h1, h2⟩ := name_then_tail "MUL: R" "MUL" ": R"
      (toString result ++ (" = " ++ (show_operand op1 ++ (" * " ++ (show_operand op2 ++ "\n")))))
      ':' rfl rfl
    exact ⟨tail, h1, Or.inl h2⟩
  · simp only [String.append_assoc]
    obtain ⟨tail, h1, h2⟩ := name_then_tail "DIV: R" "DIV" ": R"
      (toString result ++ (" = " ++ (show_operand op1 ++ (" / " ++ (show_operand op2 ++ "\n")))))
      ':' rfl rfl
    exact ⟨tail, h1, Or.inl h2⟩
  · simp only [String.append_assoc]
    obtain ⟨tail, h1, h2⟩ := name_then_tail "MOD: R" "MOD" ": R"
      (toString result ++ (" = " ++ (show_operand op1 ++ (" % " ++ (show_operand op2 ++ "\n")))))
      ':' rfl rfl
    exact ⟨tail, h1, Or.inl h2⟩
  · simp only [String.append_assoc]
    obtain ⟨tail, h1, h2⟩ := name_then_tail "LDS: &RY = " "LDS" ": &RY = "
      (show_operand op2 ++ (", R" ++ (toString result ++ (" = " ++ (toString op1 ++ "\n")))))
      ':' rfl rfl
    exact ⟨tail, h1, Or.inl h2⟩
  · exact ⟨"!\n\n", rfl, Or.inr rfl⟩

/-- In the range `0..6` the table `op_names` holds the mnemonic of the case
that the switch takes; outside of it the switch halts. -/
theorem op_name_dispatch_name (vm : VirtualMachine) (real op1 op2 result : Int) :
    (0 ≤ real → real ≤ 6 → op_name real = .ok (dispatch_name real)) ∧
    (real < 0 ∨ 6 < real → dispatch_name real = "HALT" ∧
      dispatch vm real op1 op2 result = .ok (VMS_HALTED, vm)) := by
  constructor
  · intro h0 h6
    have hcases : real = 0 ∨ real = 1 ∨ real = 2 ∨ real = 3 ∨ real = 4 ∨ real = 5 ∨
        real = 6 := by
      omega
    rcases hcases with h | h | h | h | h | h | h <;> subst h <;> decide
  · intro hout
    have h1 : real ≠ OP_ADD := by unfold OP_ADD; omega
    have h2 : real ≠ OP_SUB := by unfold OP_SUB; omega
    have h3 : real ≠ OP_MUL := by unfold OP_MUL; omega
    have h4 : real ≠ OP_DIV := by unfold OP_DIV; omega
    have h5 : real ≠ OP_MOD := by unfold OP_MOD; omega
    have h6 : real ≠ OP_LDS := by unfold OP_LDS; omega
    constructor
    · unfold dispatch_name
      rw [if_neg h1, if_neg h2, if_neg h3, if_neg h4, if_neg h5, if_neg h6]
    · unfold dispatch
      rw [if_neg h1, if_neg h2, if_neg h3, if_neg h4, if_neg h5, if_neg h6]

/-- C17: the trace names the operation that is executed.  For an encoded
opcode in `0..6` and a machine on which the effective opcode `real` is
defined, `vm_execute_op` runs its switch on `real` and the line of
`vm_display_debug_op` is `OP_`, then the mnemonic of the encoded opcode and
` -> ` exactly when `real` differs from the encoded opcode, then the mnemonic
of the case of the switch that `real` selects (the entry of `op_names` for
`real` in `0..6`, `HALT` with a halting switch otherwise), then `:` or `!`
and the rest of the line. -/
theorem trace_names_effective_opcode (vm : VirtualMachine)
    (opcode op1 op2 result real : Int)
    (hlo : 0 ≤ opcode) (hhi : opcode ≤ 6)
    (hreal : real_opcode vm opcode = .ok real) :
    vm_execute_op vm opcode op1 op2 result = dispatch vm real op1 op2 result ∧
    (0 ≤ real → real ≤ 6 → op_name real = .ok (dispatch_name real)) ∧
    (real < 0 ∨ 6 < real → dispatch_name real = "HALT" ∧
      dispatch vm real op1 op2 result = .ok (VMS_HALTED, vm)) ∧
    ∃ encoded line tail,
      op_name opcode = .ok encoded ∧
      vm_display_debug_op vm opcode op1 op2 result = .ok line ∧
      (tail.data.head? = some ':' ∨ tail.data.head? = some '!') ∧
      (real ≠ opcode → line = "OP_" ++ encoded ++ " -> " ++ (dispatch_name real ++ tail)) ∧
      (real = opcode → line = "OP_" ++ (dispatch_name real ++ tail)) ∧
      (("OP_" ++ encoded ++ " -> ").data <+: line.data ↔ real ≠ opcode) := by
  obtain ⟨hname, hhalt⟩ := op_name_dispatch_name vm real op1 op2 result
  refine ⟨vm_execute_op_of_real vm opcode real op1 op2 result hreal, hname, hhalt, ?_⟩
  obtain ⟨henc, _⟩ := op_name_dispatch_name vm opcode op1 op2 result
  have henc := henc hlo hhi
  obtain ⟨tail, htail, hhead⟩ := display_switch_name real op1 op2 result
  have hs : scrambled_opcode opcode = opcode :=
    Int.tmod_eq_of_lt hlo (by unfold NUM_OPCODES; omega)
  have hs2 : Int.tmod opcode NUM_OPCODES = opcode :=
    Int.tmod_eq_of_lt hlo (by unfold NUM_OPCODES; omega)
  by_cases hne : real = opcode
  · have hline : vm_display_debug_op vm opcode op1 op2 result
        = .ok ("OP_" ++ (dispatch_name real ++ tail)) := by
      unfold vm_display_debug_op
      rw [hreal]
      simp only [hs]
      rw [if_neg (not_not.mpr hne), htail]
    refine ⟨dispatch_name opcode, _, tail, henc, hline, hhead, fun h => absurd hne h,
      fun _ => rfl, ?_⟩
    constructor
    · intro hpre
      exfalso
      rw [hne] at hpre
      simp only [String.data_append, List.append_assoc] at hpre
      rw [List.prefix_append_right_inj, List.prefix_append_right_inj] at hpre
      rcases hhead with hh | hh
      · cases ht : tail.data with
        | nil => rw [ht] at hh; cases hh
        | cons c l =>
          rw [ht] at hh hpre
          simp only [List.head?_cons, Option.some.injEq] at hh
          subst hh
          simp at hpre
      · cases ht : tail.data with
        | nil => rw [ht] at hh; cases hh
        | cons c l =>
          rw [ht] at hh hpre
          simp only [List.head?_cons, Option.some.injEq] at hh
          subst hh
          simp at hpre
    · intro h
      exact absurd hne h
  · have hline : vm_display_debug_op vm opcode op1 op2 result
        = .ok ("OP_" ++ dispatch_name opcode ++ " -> " ++ (dispatch_name real ++ tail)) := by
      unfold vm_display_debug_op
      rw [hreal]
      simp only [hs]
      rw [if_pos hne, hs2, henc, htail]
    refine ⟨dispatch_name opcode, _, tail, henc, hline, hhead, fun _ => rfl,
      fun h => absurd h hne, ?_⟩
    constructor
    · intro _
      exact hne
    · intro _
      rw [String.data_append _ (dispatch_name real ++ tail)]
      exact List.prefix_append _ _

/-- C17, at the run of `main`: the fourth instruction, encoded `ADD`, is
executed and traced as `DIV`. -/
theorem trace_names_effective_opcode_witness :
    vm_display_debug_op vm_main_after_loads OP_ADD 2 1 1
      = .ok "OP_ADD -> DIV: R1 = R2(2) / R1(1)\n" ∧
    (vm_execute_op vm_main_after_loads OP_ADD 2 1 1
      = dispatch vm_main_after_loads OP_DIV 2 1 1 ∧
    (0 ≤ OP_DIV → OP_DIV ≤ 6 → op_name OP_DIV = .ok (dispatch_name OP_DIV)) ∧
    (OP_DIV < 0 ∨ 6 < OP_DIV → dispatch_name OP_DIV = "HALT" ∧
      dispatch vm_main_after_loads OP_DIV 2 1 1 = .ok (VMS_HALTED, vm_main_after_loads)) ∧
    ∃ encoded line tail,
      op_name OP_ADD = .ok encoded ∧
      vm_display_debug_op vm_main_after_loads OP_ADD 2 1 1 = .ok line ∧
      (tail.data.head? = some ':' ∨ tail.data.head? = some '!') ∧
      (OP_DIV ≠ OP_ADD →
        line = "OP_" ++ encoded ++ " -> " ++ (dispatch_name OP_DIV ++ tail)) ∧
      (OP_DIV = OP_ADD → line = "OP_" ++ (dispatch_name OP_DIV ++ tail)) ∧
      (("OP_" ++ encoded ++ " -> ").data <+: line.data ↔ OP_DIV ≠ OP_ADD)) :=
  ⟨by decide, trace_names_effective_opcode vm_main_after_loads OP_ADD 2 1 1 OP_DIV
    (by decide) (by decide) (by decide)⟩

/-- C18, as stated, fails.  At the fourth instruction of `program_main`,
encoded `ADD(2, 1, 1)` and executed as `DIV`, the registers read hold 64 and
74; the line of `vm_display_debug_op` shows, for each operand, the register
index and in parentheses the operand field, `R2(2)` and `R1(1)`, and neither
64 nor 74 occurs in it. -/
theorem trace_does_not_show_contents :
    real_opcode vm_main_after_loads OP_ADD = .ok OP_DIV ∧
    vm_main_after_loads.reg.get (slot 2) = 64 ∧
    vm_main_after_loads.reg.get (slot 1) = 74 ∧
    vm_display_debug_op vm_main_after_loads OP_ADD 2 1 1
      = .ok "OP_ADD -> DIV: R1 = R2(2) / R1(1)\n" ∧
    ¬ ((toString (vm_main_after_loads.reg.get (slot 2))).data
        <:+: "OP_ADD -> DIV: R1 = R2(2) / R1(1)\n".data) ∧
    ¬ ((toString (vm_main_after_loads.reg.get (slot 1))).data
        <:+: "OP_ADD -> DIV: R1 = R2(2) / R1(1)\n".data) := by
  refine ⟨by decide, by decide, by decide, by decide, by decide, by decide⟩

/-- C18, amended: when the effective opcode is `ADD`, `SUB`, `MUL`, `DIV` or
`MOD`, the line that `vm_display_debug_op` renders ends with `R`, the field
`result`, ` = `, and for each of the two source operands `R`, the index
`op % 8` of the C program and, in parentheses, the operand field `op`, the two
separated by the operator sign.  The contents of the registers are not
shown: a machine with the same effective opcode renders the same line. -/
theorem trace_shows_operand_fields (vm : VirtualMachine)
    (opcode op1 op2 result real : Int) (line : String)
    (hreal : real_opcode vm opcode = .ok real)
    (hop : real = OP_ADD ∨ real = OP_SUB ∨ real = OP_MUL ∨ real = OP_DIV ∨ real = OP_MOD)
    (hline : vm_display_debug_op vm opcode op1 op2 result = .ok line) :
    (∃ head sign, line = head ++ ("R" ++ toString result ++ " = R"
      ++ toString (Int.tmod op1 NUM_REGISTERS) ++ "(" ++ toString op1 ++ ")" ++ sign
      ++ "R" ++ toString (Int.tmod op2 NUM_REGISTERS) ++ "(" ++ toString op2 ++ ")\n") ∧
      (sign = " + " ∨ sign = " - " ∨ sign = " * " ∨ sign = " / " ∨ sign = " % ")) ∧
    (∀ vm2, real_opcode vm2 opcode = .ok real →
      vm_display_debug_op vm2 opcode op1 op2 result = .ok line) := by
  constructor
  · have hform : ∃ pre, line = pre ++ display_switch real op1 op2 result := by
      unfold vm_display_debug_op at hline
      rw [hreal] at hline
      simp only at hline
      split_ifs at hline with hne
      · cases hn : op_name (Int.tmod (scrambled_opcode opcode) NUM_OPCODES) with
        | error e => rw [hn] at hline; cases hline
        | ok name =>
          rw [hn] at hline
          simp only [Except.ok.injEq] at hline
          exact ⟨"OP_" ++ name ++ " -> ", hline.symm⟩
      · simp only [Except.ok.injEq] at hline
        exact ⟨"OP_", hline.symm⟩
    obtain ⟨pre, hpre⟩ := hform
    rcases hop with h | h | h | h | h
    · refine ⟨pre ++ "ADD: ", " + ", ?_, Or.inl rfl⟩
      rw [hpre, h]
      apply String.ext
      simp [display_switch, show_operand, String.data_append]
    · refine ⟨pre ++ "SUB: ", " - ", ?_, Or.inr (Or.inl rfl)⟩
      rw [hpre, h]
      apply String.ext
      simp [display_switch, show_operand, String.data_append]
    · refine ⟨pre ++ "MUL: ", " * ", ?_, Or.inr (Or.inr (Or.inl rfl))⟩
      rw [hpre, h]
      apply String.ext
      simp [display_switch, show_operand, String.data_append]
    · refine ⟨pre ++ "DIV: ", " / ", ?_, Or.inr (Or.inr (Or.inr (Or.inl rfl)))⟩
      rw [hpre, h]
      apply String.ext
      simp [display_switch, show_operand, String.data_append]
    · refine ⟨pre ++ "MOD: ", " % ", ?_, Or.inr (Or.inr (Or.inr (Or.inr rfl)))⟩
      rw [hpre, h]
      apply String.ext
      simp [display_switch, show_operand, String.data_append]
  · intro vm2 hreal2
    unfold vm_display_debug_op at hline ⊢
    rw [hreal] at hline
    rw [hreal2]
    exact hline

/-- C18 amended, at the run of `main`: the line of the fourth instruction,
and the same line on a machine whose registers 1 and 2 hold other values. -/
theorem trace_shows_operand_fields_witness :
    vm_other_contents.reg.get (slot 2) ≠ vm_main_after_loads.reg.get (slot 2) ∧
    vm_other_contents.reg.get (slot 1) ≠ vm_main_after_loads.reg.get (slot 1) ∧
    vm_display_debug_op vm_other_contents OP_ADD 2 1 1
      = .ok "OP_ADD -> DIV: R1 = R2(2) / R1(1)\n" ∧
    (∃ head sign, "OP_ADD -> DIV: R1 = R2(2) / R1(1)\n" = head ++ ("R" ++ toString (1 : Int)
      ++ " = R" ++ toString (Int.tmod 2 NUM_REGISTERS) ++ "(" ++ toString (2 : Int) ++ ")"
      ++ sign ++ "R" ++ toString (Int.tmod 1 NUM_REGISTERS) ++ "(" ++ toString (1 : Int)
      ++ ")\n") ∧
      (sign = " + " ∨ sign = " - " ∨ sign = " * " ∨ sign = " / " ∨ sign = " % ")) ∧
    (∀ vm2, real_opcode vm2 OP_ADD = .ok OP_DIV →
      vm_display_debug_op vm2 OP_ADD 2 1 1 = .ok "OP_ADD -> DIV: R1 = R2(2) / R1(1)\n") :=
  ⟨by decide, by decide, by decide,
    trace_shows_operand_fields vm_main_after_loads OP_ADD 2 1 1 OP_DIV
      "OP_ADD -> DIV: R1 = R2(2) / R1(1)\n" (by decide)
      (Or.inr (Or.inr (Or.inr (Or.inl rfl)))) (by decide)⟩

/-! ## Runs that end with `VMS_OK`: what holds -/

/-- What holds of C11 on the code: for a program of `4 k` words run from
program counter 0 with its length as `program_size` (an `int`), `vm_execute`
returns `VMS_OK` with the machine `vm'` exactly when each of the `k`
instructions, executed once and in order, returned `VMS_OK` and led to `vm'`;
the program counter is then the length of the program.  The empty program
returns `VMS_OK` with the machine untouched. -/
theorem vm_execute_ok_iff (program : List Int) (vm vm' : VirtualMachine) (k : Nat)
    (hlen : program.length = 4 * k)
    (hmax : (program.length : Int) ≤ INT32_MAX)
    (hpc : vm.pc = 0) :
    (vm_execute vm program program.length = .ok (VMS_OK, vm') ↔
      vm_execute_steps program program.length k vm = some vm') ∧
    (vm_execute vm program program.length = .ok (VMS_OK, vm') →
      vm'.pc = program.length) ∧
    (k = 0 → vm_execute vm program program.length = .ok (VMS_OK, vm)) := by
  have hlen4 : (program.length : Int) % 4 = 0 := by omega
  have hal := vm_execute_steps_aligned program program.length hlen4 hmax
  have hforw : vm_execute vm program program.length = .ok (VMS_OK, vm') →
      vm_execute_steps program program.length k vm = some vm' ∧ vm'.pc = program.length := by
    intro h
    obtain ⟨n, hn, hexit, _⟩ := vm_execute_loop_result program program.length _ vm vm' _ h
    obtain ⟨h1, h2⟩ := hal n vm vm' (by omega) (by omega) hn
    have h3 := h2 (by omega)
    have h4 := hexit rfl
    have hnk : n = k := by omega
    subst hnk
    exact ⟨hn, by omega⟩
  have hback : vm_execute_steps program program.length k vm = some vm' →
      vm_execute vm program program.length = .ok (VMS_OK, vm') := by
    intro h
    obtain ⟨h1, _⟩ := hal k vm vm' (by omega) (by omega) h
    unfold vm_execute
    have hfuel : ((program.length : Int) - vm.pc).toNat + 1 = (3 * k + 1) + k := by omega
    rw [hfuel, vm_execute_loop_steps program program.length _ k vm vm' h]
    rw [vm_execute_loop, if_neg (by omega)]
  refine ⟨⟨fun h => (hforw h).1, hback⟩, fun h => (hforw h).2, ?_⟩
  intro hk
  unfold vm_execute
  rw [vm_execute_loop, if_neg (by omega)]

/-- The statement `vm_execute_ok_iff` at a program of one load. -/
theorem vm_execute_ok_iff_example :
    vm_execute vm_init [6, 5, 1, 2] 4 = .ok (VMS_OK, vm_load_halt) :=
  ((vm_execute_ok_iff [6, 5, 1, 2] vm_init vm_load_halt 1 (by decide) (by decide)
    (by decide)).1).2 (by decide)

end SillyVM
